import Mathlib

/-!
# gc6 maze solver (icarus): stack, move selection and the Iterate loop

A shallow embedding of `mazelib/stack.go` and of the traversal code of
`commands/icarus.go`, followed by the properties established about them.

Conventions of the embedding.

* A Go `error` is `Option Err`; `none` is `nil`.
* A Go `interface{}` stored in the stack is an `Iface` value.
* The slice `Stack.data` is a list (oldest element first) together with the
  capacity of its backing array.
* `map[Coordinate]bool` is an association list read with Go's zero default.
* What the code obtains from outside (the HTTP server, `viper`, the JSON
  decoder, the growth policy of `append`, `Coordinate.TranformByMove`) is a
  field of `Env`.
* A run-time panic is an explicit result.
* The loop of `Iterate` is run with fuel: `iterLoop` gives `none` while the
  loop is still running, `iterAt` gives the state after a number of passes.
* What `Iterate` prints is the `Outcome` it returns with.
* Concrete runs use a server that replays a list of responses (`scriptedEnv`,
  `nullEnv`) or one that keeps the agent's position in a maze (`branchEnv`,
  `turnEnv`).
-/

namespace Gc6

/-! ## mazelib: errors, values, stack -/

/-- Error values that occur in the program. `ErrVictory` and `ErrEmptyStack`
are the package variables of `mazelib`; the others stand for the values built
by `errors.New` and for the errors returned by `net/http` and `ioutil`. -/
inductive Err where
  | ErrVictory
  | ErrEmptyStack
  | invalidDirection
  | noMoveAllowed
  | transport (msg : String)
  deriving DecidableEq, Repr

/-- Dynamic values of type `interface{}`: the untyped `nil`, a `string`, or a
value of some other dynamic type. -/
inductive Iface where
  | nil
  | str (s : String)
  | other (tag : Nat)
  deriving DecidableEq, Repr

/-- The struct `Stack`: the slice `data` as its elements (bottom first) and
the capacity of the backing array. -/
structure Stack where
  data : List Iface
  cap : Nat
  deriving DecidableEq, Repr

/-- The stack over a freshly made slice of length 0 and the given capacity. -/
def emptyStack (capacity : Nat) : Stack :=
  ⟨[], capacity⟩

/-- `NewStack(capacity)`: `make([]interface{}, 0, capacity)`, on a 64-bit
platform. The runtime panics ("makeslice: cap out of range"), here `none`,
when the `uint` capacity does not fit `int` or when its 16 bytes per element
pass the allocation limit `maxAlloc` of the runtime. -/
def NewStack (maxAlloc : Nat) (capacity : Nat) : Option Stack :=
  if capacity < 2 ^ 63 ∧ 16 * capacity ≤ maxAlloc then some (emptyStack capacity) else none

/-- `Len`: `len(s.data)`. -/
def Stack.Len (s : Stack) : Nat :=
  s.data.length

/-- The capacity of `append(s.data, value)`: unchanged while the backing array
has room, otherwise that of a freshly allocated array, which is large enough
for the result whatever the growth policy `grow` proposes. -/
def appendCap (grow : Nat → Nat) (len cap : Nat) : Nat :=
  if len + 1 ≤ cap then cap else max (len + 1) (grow cap)

/-- `Push`: `s.data = append(s.data, value)`. -/
def Stack.Push (grow : Nat → Nat) (s : Stack) (value : Iface) : Stack :=
  ⟨s.data ++ [value], appendCap grow s.data.length s.cap⟩

/-- `Pop`: the returned pair `(interface{}, error)` and the stack afterwards.
Reslicing `s.data[:s.Len()-1]` keeps the capacity. -/
def Stack.Pop (s : Stack) : (Iface × Option Err) × Stack :=
  if s.Len > 0 then
    let ret := s.data.getD (s.Len - 1) Iface.nil
    ((ret, none), ⟨s.data.take (s.Len - 1), s.cap⟩)
  else
    ((Iface.nil, some Err.ErrEmptyStack), s)

/-! ## mazelib: coordinates, surveys, replies -/

/-- The struct `mazelib.Coordinate`, built in the source as `Coordinate{0, 0}`. -/
structure Coordinate where
  X : Int
  Y : Int
  deriving DecidableEq, Repr

/-- The struct `mazelib.Survey`: the four wall flags of the current cell. -/
structure Survey where
  Top : Bool
  Right : Bool
  Bottom : Bool
  Left : Bool
  deriving DecidableEq, Repr

/-- The zero value `mazelib.Survey{}`. -/
def Survey.zero : Survey :=
  ⟨false, false, false, false⟩

/-- The fields of `mazelib.Reply` read by the source. -/
structure Reply where
  Survey : Survey
  Victory : Bool
  Message : String
  deriving DecidableEq, Repr

/-- The zero value `mazelib.Reply{}`. -/
def Reply.zero : Reply :=
  ⟨Survey.zero, false, ""⟩

/-- The map `visited`: the latest binding of a key comes first. -/
abbrev Visited := List (Coordinate × Bool)

/-- The read `visited[c]`, with `false` for an absent key. -/
def Visited.get (v : Visited) (c : Coordinate) : Bool :=
  match v.lookup c with
  | some b => b
  | none => false

/-- The write `visited[c] = b`. -/
def Visited.set (v : Visited) (c : Coordinate) (b : Bool) : Visited :=
  (c, b) :: v

/-! ## commands: pure helpers -/

/-- `ReverseMove`: the `switch` over the four directions, `""` otherwise. -/
def ReverseMove (move : String) : String :=
  if move = "down" then "up"
  else if move = "up" then "down"
  else if move = "right" then "left"
  else if move = "left" then "right"
  else ""

/-- `getValidMove`, with `co.TranformByMove` passed as `tr`. -/
def getValidMove (tr : Coordinate → String → Coordinate) (survey : Survey)
    (visited : Visited) (co : Coordinate) : String × Option Err :=
  if (!survey.Bottom && !visited.get (tr co "down")) = true then ("down", none)
  else if (!survey.Right && !visited.get (tr co "right")) = true then ("right", none)
  else if (!survey.Top && !visited.get (tr co "up")) = true then ("up", none)
  else if (!survey.Left && !visited.get (tr co "left")) = true then ("left", none)
  else ("", some Err.noMoveAllowed)

/-! ## commands: the transport -/

/-- The pair returned by `makeRequest`: an error with `nil` contents when
`http.Get` or `ioutil.ReadAll` fails, otherwise the bytes of the body. -/
inductive HttpResult where
  | failure (msg : String)
  | body (contents : List Nat)
  deriving DecidableEq, Repr

/-- What `json.Unmarshal(in, &res)` leaves behind when `res` starts as
`&mazelib.Reply{}`: the struct `res` points to afterwards (`none` when the
decoder has set `res` to `nil`) and whether it returned an error. -/
structure Unmarshalled where
  res : Option Reply
  failed : Bool
  deriving DecidableEq, Repr

/-- Everything the code takes from outside, over a server with states `σ`. -/
structure Env (σ : Type) where
  /-- The value of `viper.GetString("port")`. -/
  port : String
  /-- The server answering `http.Get(url)` followed by `ioutil.ReadAll`. -/
  httpGet : σ → String → HttpResult × σ
  /-- The decoder `json.Unmarshal` on a fresh `*mazelib.Reply`. -/
  jsonUnmarshal : List Nat → Unmarshalled
  /-- The method `Coordinate.TranformByMove`. -/
  TranformByMove : Coordinate → String → Coordinate
  /-- The capacity the runtime proposes when `append` has to reallocate. -/
  grow : Nat → Nat
  /-- The allocation limit of the runtime, in bytes. -/
  maxAlloc : Nat

/-- The outside world during a run: the state of the server and the URLs
requested so far, oldest first. -/
structure World (σ : Type) where
  auth : σ
  log : List String

/-- `makeRequest(url)`. -/
def makeRequest {σ : Type} (env : Env σ) (url : String) (w : World σ) :
    HttpResult × World σ :=
  let r := env.httpGet w.auth url
  (r.1, ⟨r.2, w.log ++ [url]⟩)

/-- `ToReply(in)`: the error of `json.Unmarshal` is dropped; `none` is the
nil dereference of `*res`. -/
def ToReply {σ : Type} (env : Env σ) (contents : List Nat) : Option Reply :=
  (env.jsonUnmarshal contents).res

/-- `Move(direction)`: `none` in the first component is a panic, otherwise
the returned pair `(mazelib.Survey, error)`. -/
def Move {σ : Type} (env : Env σ) (direction : String) (w : World σ) :
    Option (Survey × Option Err) × World σ :=
  if direction = "left" ∨ direction = "right" ∨ direction = "up" ∨ direction = "down" then
    match makeRequest env ("http://127.0.0.1:" ++ env.port ++ "/move/" ++ direction) w with
    | (HttpResult.failure msg, w1) => (some (Survey.zero, some (Err.transport msg)), w1)
    | (HttpResult.body contents, w1) =>
      match ToReply env contents with
      | none => (none, w1)
      | some rep =>
        if rep.Victory = true then (some (rep.Survey, some Err.ErrVictory), w1)
        else (some (rep.Survey, none), w1)
  else (some (Survey.zero, some Err.invalidDirection), w)

/-- `awake()`: a failed request is only printed, and the nil contents are
decoded all the same. -/
def awake {σ : Type} (env : Env σ) (w : World σ) : Option Survey × World σ :=
  match makeRequest env ("http://127.0.0.1:" ++ env.port ++ "/awake") w with
  | (HttpResult.failure _, w1) => ((ToReply env []).map Reply.Survey, w1)
  | (HttpResult.body contents, w1) => ((ToReply env contents).map Reply.Survey, w1)

/-! ## commands: the traversal -/

/-- The variables of `Iterate` that live across loop iterations, the stack
behind the pointer `breadcrumbs`, and the outside world. -/
structure IterState (σ : Type) where
  survey : Survey
  co : Coordinate
  err : Option Err
  visited : Visited
  breadcrumbs : Stack
  world : World σ

/-- The ways `Iterate` ends: the three `return` statements with what they
print, and a panic. -/
inductive Outcome where
  | solved (steps : Nat)
  | failed (e : Err)
  | noSolution
  | panicked
  deriving DecidableEq, Repr

/-- The result of one pass through the body of the loop. -/
inductive Step (σ : Type) where
  | halt (o : Outcome) (s : IterState σ)
  | next (s : IterState σ)

/-- `executeMove(move, breadcrumbs, visited, co)` on the state `s`: the stack
and the map are shared with the caller, the three results are assigned to
`survey`, `co` and `err`. -/
def executeMove {σ : Type} (env : Env σ) (move : String) (s : IterState σ) : Step σ :=
  let breadcrumbs := s.breadcrumbs.Push env.grow (Iface.str move)
  match Move env move s.world with
  | (none, w1) => Step.halt Outcome.panicked ⟨s.survey, s.co, s.err, s.visited, breadcrumbs, w1⟩
  | (some (survey, err), w1) =>
    let co := env.TranformByMove s.co move
    Step.next ⟨survey, co, err, s.visited.set co true, breadcrumbs, w1⟩

/-- The body of the `for true` loop of `Iterate`. In the `else if`, `Pop`
has either failed with `ErrEmptyStack`, which is the last branch of the
source, or returned a value, on which the type assertion `undoObj.(string)`
panics unless it is a string. -/
def iterStep {σ : Type} (env : Env σ) (s : IterState σ) : Step σ :=
  if s.err = some Err.ErrVictory then Step.halt (Outcome.solved s.breadcrumbs.Len) s
  else match s.err with
  | some e => Step.halt (Outcome.failed e) s
  | none =>
    match getValidMove env.TranformByMove s.survey s.visited s.co with
    | (move, none) => executeMove env move s
    | (_, some _) =>
      match s.breadcrumbs.Pop with
      | ((_, some Err.ErrEmptyStack), stack) =>
        Step.halt Outcome.noSolution ⟨s.survey, s.co, s.err, s.visited, stack, s.world⟩
      | ((Iface.str undoStr, _), stack) =>
        let undo := ReverseMove undoStr
        match Move env undo s.world with
        | (none, w1) =>
          Step.halt Outcome.panicked ⟨s.survey, s.co, s.err, s.visited, stack, w1⟩
        | (some (survey, err), w1) =>
          Step.next ⟨survey, env.TranformByMove s.co undo, err, s.visited, stack, w1⟩
      | ((_, _), stack) =>
        Step.halt Outcome.panicked ⟨s.survey, s.co, s.err, s.visited, stack, s.world⟩

/-- The state in which `Iterate(survey, breadcrumbs)` enters its loop. -/
def iterInit {σ : Type} (survey : Survey) (breadcrumbs : Stack) (w : World σ) :
    IterState σ :=
  ⟨survey, ⟨0, 0⟩, none, Visited.set [] ⟨0, 0⟩ true, breadcrumbs, w⟩

/-- The loop of `Iterate`, cut off after `fuel` passes: `none` when it is
still running then. -/
def iterLoop {σ : Type} (env : Env σ) : Nat → IterState σ → Option (Outcome × IterState σ)
  | 0, _ => none
  | fuel + 1, s =>
    match iterStep env s with
    | Step.halt o s1 => some (o, s1)
    | Step.next s1 => iterLoop env fuel s1

/-- `Iterate(survey, breadcrumbs)`. -/
def Iterate {σ : Type} (env : Env σ) (fuel : Nat) (survey : Survey) (breadcrumbs : Stack)
    (w : World σ) : Option (Outcome × IterState σ) :=
  iterLoop env fuel (iterInit survey breadcrumbs w)

/-- `solveMaze()`. A panic of `awake` or of `NewStack` ends it before the
loop is entered. -/
def solveMaze {σ : Type} (env : Env σ) (fuel : Nat) (w : World σ) :
    Option (Outcome × IterState σ) :=
  match awake env w with
  | (none, w1) => some (Outcome.panicked, iterInit Survey.zero (emptyStack 0) w1)
  | (some survey, w1) =>
    match NewStack env.maxAlloc 100 with
    | none => some (Outcome.panicked, iterInit survey (emptyStack 0) w1)
    | some breadcrumbs => Iterate env fuel survey breadcrumbs w1

/-- The state of the loop after `n` complete passes that did not return:
`none` when `Iterate` has ended before. -/
def iterAt {σ : Type} (env : Env σ) : Nat → IterState σ → Option (IterState σ)
  | 0, s => some s
  | n + 1, s =>
    match iterAt env n s with
    | none => none
    | some s1 =>
      match iterStep env s1 with
      | Step.halt _ _ => none
      | Step.next s2 => some s2

/-- The state in which a pass through the loop body ends. -/
def Step.state {σ : Type} : Step σ → IterState σ
  | Step.halt _ s => s
  | Step.next s => s

/-! ## Vocabulary of the properties -/

/-- The four-direction enumeration. -/
def isMove (m : String) : Prop :=
  m = "up" ∨ m = "down" ∨ m = "left" ∨ m = "right"

instance (m : String) : Decidable (isMove m) := by
  unfold isMove; infer_instance

/-- The priority order in which directions are tried. -/
def directions : List String :=
  ["down", "right", "up", "left"]

/-- The wall flag of the survey that belongs to a direction. -/
def wallFlag (survey : Survey) (m : String) : Bool :=
  if m = "down" then survey.Bottom
  else if m = "right" then survey.Right
  else if m = "up" then survey.Top
  else if m = "left" then survey.Left
  else true

/-- A direction qualifies when its edge is not walled and its target is not
in the visited set. -/
def qualifies (tr : Coordinate → String → Coordinate) (survey : Survey)
    (visited : Visited) (co : Coordinate) (m : String) : Bool :=
  !wallFlag survey m && !visited.get (tr co m)

/-- Move selection as the specification words it: the first qualifying
direction in priority order, or the "no move" signal. -/
def firstQualifying (tr : Coordinate → String → Coordinate) (survey : Survey)
    (visited : Visited) (co : Coordinate) : String × Option Err :=
  match directions.find? (qualifies tr survey visited co) with
  | some m => (m, none)
  | none => ("", some Err.noMoveAllowed)

/-- Pushing a sequence of values, first to last. -/
def pushAll (grow : Nat → Nat) (s : Stack) (vs : List Iface) : Stack :=
  vs.foldl (Stack.Push grow) s

/-- The results of `n` successive calls of `Pop`, and the stack afterwards. -/
def popN : Nat → Stack → List (Iface × Option Err) × Stack
  | 0, s => ([], s)
  | n + 1, s =>
    let r := s.Pop
    let rest := popN n r.2
    (r.1 :: rest.1, rest.2)

/-- What a pass that does not return has done: a forward move `m` chosen by
`getValidMove`, or the undoing of the move `m` on top of the history. -/
def stepRel {σ : Type} (env : Env σ) (s s1 : IterState σ) : Prop :=
  s.err = none ∧
  ((∃ m, getValidMove env.TranformByMove s.survey s.visited s.co = (m, none) ∧
      s1.breadcrumbs = s.breadcrumbs.Push env.grow (Iface.str m) ∧
      s1.co = env.TranformByMove s.co m ∧
      s1.visited = s.visited.set (env.TranformByMove s.co m) true ∧
      Move env m s.world = (some (s1.survey, s1.err), s1.world)) ∨
   (∃ m d, (getValidMove env.TranformByMove s.survey s.visited s.co).2 ≠ none ∧
      s.breadcrumbs.data = d ++ [Iface.str m] ∧
      s1.breadcrumbs = ⟨d, s.breadcrumbs.cap⟩ ∧
      s1.co = env.TranformByMove s.co (ReverseMove m) ∧
      s1.visited = s.visited ∧
      Move env (ReverseMove m) s.world = (some (s1.survey, s1.err), s1.world)))

/-- The number of backtracking passes, those that shorten the history, among
the first `n` passes of a run from `s0`. -/
def backtracks {σ : Type} (env : Env σ) : Nat → IterState σ → Nat
  | 0, _ => 0
  | n + 1, s0 =>
    backtracks env n s0 +
      (match iterAt env n s0 with
       | some s => if (iterStep env s).state.breadcrumbs.Len < s.breadcrumbs.Len then 1 else 0
       | none => 0)

/-- The start coordinate transformed by a sequence of moves, first to last. -/
def replay (tr : Coordinate → String → Coordinate) (ms : List String) : Coordinate :=
  ms.foldl tr ⟨0, 0⟩

/-- The history holds move strings only, and replaying them from the start
coordinate leads to the current coordinate. -/
def ReplaysHistory {σ : Type} (env : Env σ) (s : IterState σ) : Prop :=
  ∃ ms : List String, s.breadcrumbs.data = ms.map Iface.str ∧ (∀ m ∈ ms, isMove m) ∧
    s.co = replay env.TranformByMove ms

/-! ## A scripted server -/

/-- Modelled from the spec: `Coordinate.TranformByMove` is declared outside
the sources at hand. The specification gives the deltas down +y, up -y,
right +x, left -x; any other string leaves the coordinate as it is. -/
def TranformByMove (c : Coordinate) (move : String) : Coordinate :=
  if move = "down" then ⟨c.X, c.Y + 1⟩
  else if move = "up" then ⟨c.X, c.Y - 1⟩
  else if move = "right" then ⟨c.X + 1, c.Y⟩
  else if move = "left" then ⟨c.X - 1, c.Y⟩
  else c

/-- A server that answers the requests with a fixed list of responses, in
order, and refuses the connection afterwards. -/
def scriptedGet (script : List HttpResult) (_url : String) : HttpResult × List HttpResult :=
  match script with
  | [] => (HttpResult.failure "connection refused", [])
  | r :: rs => (r, rs)

/-- A stand-in decoder: five numbers are the flags top, right, bottom, left
and victory; anything else is a syntax error, which leaves the reply zero. -/
def flagsUnmarshal : List Nat → Unmarshalled
  | [t, r, b, l, v] => ⟨some ⟨⟨t != 0, r != 0, b != 0, l != 0⟩, v != 0, ""⟩, false⟩
  | _ => ⟨some Reply.zero, true⟩

/-- The environment of the scripted runs. -/
def scriptedEnv : Env (List HttpResult) :=
  ⟨"8080", scriptedGet, flagsUnmarshal, TranformByMove, fun c => 2 * c, 2 ^ 48⟩

/-- A run with a dead end: the cell below the start is closed on all sides
but the top, and the cell to the right of the start is the exit. -/
def deadEndScript : List HttpResult :=
  [HttpResult.body [0, 1, 1, 1, 0], HttpResult.body [1, 0, 0, 1, 0],
   HttpResult.body [1, 1, 1, 1, 1]]

/-- The survey of the start cell of `deadEndScript`: open below and to the
right. -/
def deadEndSurvey : Survey :=
  ⟨true, false, false, true⟩

/-- The URL that `Move` requests for a direction. -/
def moveUrl {σ : Type} (env : Env σ) (direction : String) : String :=
  "http://127.0.0.1:" ++ env.port ++ "/move/" ++ direction

/-- The pair `(mazelib.Survey, error)` that `Move` builds from a decoded
reply. -/
def replyResult (rep : Reply) : Survey × Option Err :=
  (rep.Survey, if rep.Victory = true then some Err.ErrVictory else none)

/-- The coordinates the agent has occupied in the first `n` passes of a run
from `s0`: the start, and the coordinate after every pass whose move the
authority has answered, with or without victory. A move that failed (or was
not issued) has left the agent where it was, whatever `co` has become. -/
def occupied {σ : Type} (env : Env σ) : Nat → IterState σ → List Coordinate
  | 0, s0 => [s0.co]
  | n + 1, s0 =>
    occupied env n s0 ++
      (match iterAt env (n + 1) s0 with
       | some s => if s.err = none ∨ s.err = some Err.ErrVictory then [s.co] else []
       | none => [])

/-- The history is a path from the start: it holds moves only, replaying it
leads to the current coordinate, every coordinate along it is in the visited
set, and no move in it is followed by its inverse. -/
def PathInv {σ : Type} (env : Env σ) (s : IterState σ) : Prop :=
  ∃ ms : List String, s.breadcrumbs.data = ms.map Iface.str ∧ (∀ m ∈ ms, isMove m) ∧
    s.co = replay env.TranformByMove ms ∧
    (∀ p, p <+: ms → s.visited.get (replay env.TranformByMove p) = true) ∧
    List.Chain' (fun a b => b ≠ ReverseMove a) ms

/-! ## A maze server -/

/-- The body the maze server sends: the four wall flags and the victory
flag, as `flagsUnmarshal` reads them. -/
def encodeReply (survey : Survey) (victory : Bool) : List Nat :=
  [survey.Top.toNat, survey.Right.toNat, survey.Bottom.toNat, survey.Left.toNat,
    victory.toNat]

/-- A server that keeps the position of the agent in a maze given by the
survey of each cell, with coordinates as `TranformByMove` counts them: a move
through an open edge leads to the neighbouring cell, whose survey is sent,
with the victory flag when that cell is the exit; a move against a wall
leaves the agent where it is. -/
def mazeGet (cells : Coordinate → Survey) (goal : Coordinate) (pos : Coordinate)
    (url : String) : HttpResult × Coordinate :=
  let dir :=
    if url = "http://127.0.0.1:8080/move/down" then "down"
    else if url = "http://127.0.0.1:8080/move/right" then "right"
    else if url = "http://127.0.0.1:8080/move/up" then "up"
    else if url = "http://127.0.0.1:8080/move/left" then "left"
    else ""
  if dir = "" then (HttpResult.failure "not found", pos)
  else if wallFlag (cells pos) dir = true then
    (HttpResult.body (encodeReply (cells pos) false), pos)
  else
    let p := TranformByMove pos dir
    (HttpResult.body (encodeReply (cells p) (decide (p = goal))), p)

/-- A maze with two branches from the start: downwards a corridor of three
cells that ends blind, to the right a corridor of two cells that ends at the
exit (2,0). -/
def branchMaze (c : Coordinate) : Survey :=
  if c = ⟨0, 0⟩ then ⟨true, false, false, true⟩
  else if c = ⟨0, 1⟩ then ⟨false, true, false, true⟩
  else if c = ⟨0, 2⟩ then ⟨false, true, false, true⟩
  else if c = ⟨0, 3⟩ then ⟨false, true, true, true⟩
  else if c = ⟨1, 0⟩ then ⟨true, false, true, false⟩
  else if c = ⟨2, 0⟩ then ⟨true, true, true, false⟩
  else ⟨true, true, true, true⟩

/-- The environment of the runs in `branchMaze`. -/
def branchEnv : Env Coordinate :=
  ⟨"8080", mazeGet branchMaze ⟨2, 0⟩, flagsUnmarshal, TranformByMove, fun c => 2 * c, 2 ^ 48⟩

/-- The state in which `Iterate` starts in `branchMaze`, with the survey of
the start cell and a fresh stack. -/
def branchInit : IterState Coordinate :=
  iterInit (branchMaze ⟨0, 0⟩) (emptyStack 100) ⟨⟨0, 0⟩, []⟩

/-- The six cells of `branchMaze` that are not walled on all sides. -/
def branchCells : Finset Coordinate :=
  {⟨0, 0⟩, ⟨0, 1⟩, ⟨0, 2⟩, ⟨0, 3⟩, ⟨1, 0⟩, ⟨2, 0⟩}

/-- A check that the state after `n` passes of a run from `s0`, when there
is one and it carries no error, has a survey that reports a wall on every
edge leading out of `S`. -/
def confinedAt {σ : Type} (env : Env σ) (S : Finset Coordinate) (s0 : IterState σ)
    (n : Nat) : Bool :=
  match iterAt env n s0 with
  | some s =>
    s.err.isSome ||
      directions.all (fun m => wallFlag s.survey m || decide (env.TranformByMove s.co m ∈ S))
  | none => true

/-- A stand-in decoder that treats the body `null` as `json.Unmarshal` does:
the pointer to the reply is set to nil, without error. Every other body is
read as by `flagsUnmarshal`. -/
def nullUnmarshal (contents : List Nat) : Unmarshalled :=
  if contents = [110, 117, 108, 108] then ⟨none, false⟩ else flagsUnmarshal contents

/-- The environment of the scripted runs with the decoder `nullUnmarshal`. -/
def nullEnv : Env (List HttpResult) :=
  ⟨"8080", scriptedGet, nullUnmarshal, TranformByMove, fun c => 2 * c, 2 ^ 48⟩

/-- A start cell open to the right only, in a maze of the two cells (0,0) and
(1,0), with a server that answers the first move with the body `null`. -/
def nullInit : IterState (List HttpResult) :=
  iterInit ⟨true, false, true, true⟩ (emptyStack 100)
    ⟨[HttpResult.body [110, 117, 108, 108]], []⟩

/-! ## Mazes with a dead-end branch -/

/-- The rank of a direction in the order in which `getValidMove` tries them. -/
def prio (m : String) : Nat :=
  if m = "down" then 0
  else if m = "right" then 1
  else if m = "up" then 2
  else if m = "left" then 3
  else 4

/-- The authority serves the maze `cells` with exit `goal`, and `pos` reads
the agent's cell off its state, in the coordinates of `TranformByMove`: a move
through an edge that is open in the agent's cell is answered with a body that
decodes to the survey of the neighbouring cell and to the victory flag set
exactly when that cell is the exit, and the agent is in that cell
afterwards. -/
def Serves {σ : Type} (env : Env σ) (cells : Coordinate → Survey) (goal : Coordinate)
    (pos : σ → Coordinate) : Prop :=
  ∀ a m, isMove m → wallFlag (cells (pos a)) m = false →
    pos (env.httpGet a (moveUrl env m)).2 = env.TranformByMove (pos a) m ∧
    ∃ contents msg, (env.httpGet a (moveUrl env m)).1 = HttpResult.body contents ∧
      ToReply env contents = some ⟨cells (env.TranformByMove (pos a) m),
        decide (env.TranformByMove (pos a) m = goal), msg⟩

/-- A maze with a dead-end branch of depth three and an exit at depth two.
From the start the open edge of first priority is `d1`, and `e1` is the
next one; behind `d1` a corridor goes on by `d2` and `d3` and ends blind;
behind `e1` the edge `e2` is, the way back apart, the open edge of first
priority and leads to the exit. The six cells are distinct. -/
structure BranchShape (tr : Coordinate → String → Coordinate) (cells : Coordinate → Survey)
    (goal : Coordinate) (d1 d2 d3 e1 e2 : String) : Prop where
  moves : isMove d1 ∧ isMove d2 ∧ isMove d3 ∧ isMove e1 ∧ isMove e2
  distinct : [replay tr [], replay tr [d1], replay tr [d1, d2], replay tr [d1, d2, d3],
    replay tr [e1], replay tr [e1, e2]].Nodup
  goal_at : goal = replay tr [e1, e2]
  start_first : wallFlag (cells (replay tr [])) d1 = false
  start_second : wallFlag (cells (replay tr [])) e1 = false
  start_order : prio d1 < prio e1
  start_rest : ∀ m, isMove m → wallFlag (cells (replay tr [])) m = false →
    m = d1 ∨ prio e1 ≤ prio m
  dead1_on : wallFlag (cells (replay tr [d1])) d2 = false
  dead1_back : wallFlag (cells (replay tr [d1])) (ReverseMove d1) = false
  dead1_rest : ∀ m, isMove m → wallFlag (cells (replay tr [d1])) m = false →
    m = ReverseMove d1 ∨ m = d2
  dead2_on : wallFlag (cells (replay tr [d1, d2])) d3 = false
  dead2_back : wallFlag (cells (replay tr [d1, d2])) (ReverseMove d2) = false
  dead2_rest : ∀ m, isMove m → wallFlag (cells (replay tr [d1, d2])) m = false →
    m = ReverseMove d2 ∨ m = d3
  dead3_back : wallFlag (cells (replay tr [d1, d2, d3])) (ReverseMove d3) = false
  dead3_rest : ∀ m, isMove m → wallFlag (cells (replay tr [d1, d2, d3])) m = false →
    m = ReverseMove d3
  exit_on : wallFlag (cells (replay tr [e1])) e2 = false
  exit_rest : ∀ m, isMove m → wallFlag (cells (replay tr [e1])) m = false →
    m = ReverseMove e1 ∨ prio e2 ≤ prio m

/-- The state `s` of the loop has the agent in the cell `c` of the maze, as
the authority has it too, with the survey of that cell, no error, the history
`hist`, the visited coordinates `vis` and the request log `log`. -/
def AtCell {σ : Type} (cells : Coordinate → Survey) (pos : σ → Coordinate)
    (s : IterState σ) (c : Coordinate) (hist : List String) (vis : List Coordinate)
    (log : List String) : Prop :=
  s.survey = cells c ∧ s.co = c ∧ s.err = none ∧ pos s.world.auth = c ∧
    s.breadcrumbs.data = hist.map Iface.str ∧ (∀ x, s.visited.get x = decide (x ∈ vis)) ∧
    s.world.log = log

/-- A maze whose corridors turn: from the start the dead-end branch goes
right, down and left, and the second branch goes up and then left to the exit
(-1,-1). -/
def turnMaze (c : Coordinate) : Survey :=
  if c = ⟨0, 0⟩ then ⟨false, false, true, true⟩
  else if c = ⟨1, 0⟩ then ⟨true, true, false, false⟩
  else if c = ⟨1, 1⟩ then ⟨false, true, true, false⟩
  else if c = ⟨0, 1⟩ then ⟨true, false, true, true⟩
  else if c = ⟨0, -1⟩ then ⟨true, true, false, false⟩
  else if c = ⟨-1, -1⟩ then ⟨true, false, true, true⟩
  else ⟨true, true, true, true⟩

/-- The environment of the runs in `turnMaze`. -/
def turnEnv : Env Coordinate :=
  ⟨"8080", mazeGet turnMaze ⟨-1, -1⟩, flagsUnmarshal, TranformByMove, fun c => 2 * c, 2 ^ 48⟩

/-! ## Stack lemmas -/

theorem Stack.pop_snoc (d : List Iface) (v : Iface) (cap : Nat) :
    Stack.Pop ⟨d ++ [v], cap⟩ = ((v, none), ⟨d, cap⟩) := by
  simp [Stack.Pop, Stack.Len, List.getD]

theorem pushAll_data (grow : Nat → Nat) (vs : List Iface) (s : Stack) :
    (pushAll grow s vs).data = s.data ++ vs := by
  induction vs generalizing s with
  | nil => simp [pushAll]
  | cons v vs ih =>
    have h := ih (s.Push grow v)
    simp only [pushAll, List.foldl_cons] at h ⊢
    rw [h]
    simp [Stack.Push]

theorem popN_reverse (cap : Nat) (ws : List Iface) (d : List Iface) :
    popN ws.length ⟨d ++ ws.reverse, cap⟩ = (ws.map (fun v => (v, none)), ⟨d, cap⟩) := by
  induction ws generalizing d with
  | nil => simp [popN]
  | cons w ws ih =>
    have h : d ++ (w :: ws).reverse = (d ++ ws.reverse) ++ [w] := by simp
    rw [h]
    simp only [List.length_cons, popN, Stack.pop_snoc, ih, List.map_cons]

/-! ## Properties of the pure helpers and of the stack -/

/-- C4: for each of the four moves, reversing it twice gives the move back. -/
theorem ReverseMove_involutive_on_moves :
    ReverseMove (ReverseMove "up") = "up" ∧ ReverseMove (ReverseMove "down") = "down" ∧
    ReverseMove (ReverseMove "left") = "left" ∧
    ReverseMove (ReverseMove "right") = "right" := by
  decide

/-- C5: `ReverseMove` swaps up with down and left with right; its result is
one of the four moves exactly when its argument is, and every other argument
gives the empty string. -/
theorem ReverseMove_table (m : String) :
    ReverseMove "up" = "down" ∧ ReverseMove "down" = "up" ∧
    ReverseMove "left" = "right" ∧ ReverseMove "right" = "left" ∧
    (isMove (ReverseMove m) ↔ isMove m) ∧ (¬ isMove m → ReverseMove m = "") := by
  refine ⟨by decide, by decide, by decide, by decide, ?_, ?_⟩
  · unfold ReverseMove isMove
    by_cases h1 : m = "down"
    · subst h1; decide
    by_cases h2 : m = "up"
    · subst h2; decide
    by_cases h3 : m = "right"
    · subst h3; decide
    by_cases h4 : m = "left"
    · subst h4; decide
    simp [h1, h2, h3, h4]
  · intro h
    unfold isMove at h
    unfold ReverseMove
    by_cases h1 : m = "down"
    · exact absurd (Or.inr (Or.inl h1)) h
    by_cases h2 : m = "up"
    · exact absurd (Or.inl h2) h
    by_cases h3 : m = "right"
    · exact absurd (Or.inr (Or.inr (Or.inr h3))) h
    by_cases h4 : m = "left"
    · exact absurd (Or.inr (Or.inr (Or.inl h4))) h
    simp [h1, h2, h3, h4]

/-- C8: `Pop` returns `ErrEmptyStack` exactly when the stack is empty, and
then the value is nil and the stack is returned as it was, still empty. -/
theorem Stack.Pop_empty_iff (s : Stack) :
    (s.Pop.1.2 = some Err.ErrEmptyStack ↔ s.Len = 0) ∧
    (s.Len = 0 → s.Pop = ((Iface.nil, some Err.ErrEmptyStack), s) ∧ s.Pop.2.Len = 0) := by
  constructor
  · unfold Stack.Pop
    by_cases h : s.Len > 0
    · simp [h]; omega
    · simp [h]; omega
  · intro h
    unfold Stack.Pop
    simp [h]

/-- C9: a `Push` followed by a `Pop` returns the pushed value without error
and leaves the stack with the contents it had before the `Push`. -/
theorem Stack.Pop_Push (grow : Nat → Nat) (s : Stack) (v : Iface) :
    (s.Push grow v).Pop.1 = (v, none) ∧ (s.Push grow v).Pop.2.data = s.data ∧
    (s.Push grow v).Pop.2.Len = s.Len := by
  simp [Stack.Push, Stack.pop_snoc, Stack.Len]

/-- C10, as stated, fails for capacities that `make` refuses: `NewStack`
panics for the capacity 2^62 under the allocation limit 2^48, so that there
is no stack on which `Len` after one push could be 1, and for the largest
`uint`, which does not fit `int`, it panics under every allocation limit. -/
theorem NewStack_panics_out_of_range :
    (NewStack (2 ^ 48) (2 ^ 62)).map
        (fun s => (pushAll (fun c => 2 * c) s [Iface.str "a"]).Len) = none ∧
    ∀ maxAlloc, NewStack maxAlloc (2 ^ 64 - 1) = none := by
  refine ⟨by decide, fun maxAlloc => ?_⟩
  have h : ¬ (2 ^ 64 - 1 < 2 ^ 63 ∧ 16 * (2 ^ 64 - 1) ≤ maxAlloc) := by
    intro hc
    exact absurd hc.1 (by decide)
  simp only [NewStack, h, if_false]

/-- C10, amended: for every capacity `c` for which `NewStack c` returns a
stack, after pushing any sequence of values onto it, longer than `c` or not,
`Len` is the number of pushes, that many `Pop`s return the values in reverse
order of insertion, each without error, and the stack is empty afterwards. -/
theorem Stack.capacity_never_loses (maxAlloc : Nat) (grow : Nat → Nat) (c : Nat)
    (vs : List Iface) (s : Stack) (hs : NewStack maxAlloc c = some s) :
    (pushAll grow s vs).Len = vs.length ∧
    (popN vs.length (pushAll grow s vs)).1 = vs.reverse.map (fun v => (v, none)) ∧
    (popN vs.length (pushAll grow s vs)).2.Len = 0 := by
  have hs0 : s.data = [] := by
    unfold NewStack at hs
    split at hs
    · simp only [Option.some.injEq] at hs
      rw [← hs]; rfl
    · simp at hs
  have hd : (pushAll grow s vs).data = vs := by
    simp [pushAll_data, hs0]
  have hst : pushAll grow s vs
      = ⟨[] ++ vs.reverse.reverse, (pushAll grow s vs).cap⟩ := by
    cases h : pushAll grow s vs with
    | mk d cap => rw [h] at hd; simp at hd; simp [hd]
  have hp := popN_reverse (pushAll grow s vs).cap vs.reverse []
  rw [List.length_reverse] at hp
  refine ⟨by simp [Stack.Len, hd], ?_, ?_⟩
  · rw [hst, hp]
  · rw [hst, hp]; rfl

/-- Three pushes onto `NewStack(1)`: the length is three and three pops
return the values last to first. -/
theorem Stack.capacity_never_loses_witness :
    NewStack (2 ^ 48) 1 = some (emptyStack 1) ∧
    (pushAll (fun c => 2 * c) (emptyStack 1)
        [Iface.str "a", Iface.str "b", Iface.str "c"]).Len = 3 ∧
    (popN 3 (pushAll (fun c => 2 * c) (emptyStack 1)
        [Iface.str "a", Iface.str "b", Iface.str "c"])).1
      = [(Iface.str "c", none), (Iface.str "b", none), (Iface.str "a", none)] ∧
    (popN 3 (pushAll (fun c => 2 * c) (emptyStack 1)
        [Iface.str "a", Iface.str "b", Iface.str "c"])).2.Len = 0 :=
  ⟨by decide,
   Stack.capacity_never_loses (2 ^ 48) (fun c => 2 * c) 1
    [Iface.str "a", Iface.str "b", Iface.str "c"] (emptyStack 1) (by decide)⟩

/-! ## Move selection -/

theorem qualifies_down (tr : Coordinate → String → Coordinate) (survey : Survey)
    (visited : Visited) (co : Coordinate) :
    qualifies tr survey visited co "down"
      = (!survey.Bottom && !visited.get (tr co "down")) := by
  simp [qualifies, wallFlag]

theorem qualifies_right (tr : Coordinate → String → Coordinate) (survey : Survey)
    (visited : Visited) (co : Coordinate) :
    qualifies tr survey visited co "right"
      = (!survey.Right && !visited.get (tr co "right")) := by
  simp [qualifies, wallFlag]

theorem qualifies_up (tr : Coordinate → String → Coordinate) (survey : Survey)
    (visited : Visited) (co : Coordinate) :
    qualifies tr survey visited co "up"
      = (!survey.Top && !visited.get (tr co "up")) := by
  simp [qualifies, wallFlag]

theorem qualifies_left (tr : Coordinate → String → Coordinate) (survey : Survey)
    (visited : Visited) (co : Coordinate) :
    qualifies tr survey visited co "left"
      = (!survey.Left && !visited.get (tr co "left")) := by
  simp [qualifies, wallFlag]

/-- C1: `getValidMove` returns the first direction, in the order down, right,
up, left, whose wall flag (Bottom, Right, Top, Left) is false and whose target
is not in the visited set, and it returns the "no move" error exactly when no
direction satisfies both conditions. -/
theorem getValidMove_first_qualifying (tr : Coordinate → String → Coordinate)
    (survey : Survey) (visited : Visited) (co : Coordinate) :
    getValidMove tr survey visited co = firstQualifying tr survey visited co ∧
    ((getValidMove tr survey visited co).2 ≠ none ↔
      ∀ m ∈ directions, qualifies tr survey visited co m = false) := by
  have hd := qualifies_down tr survey visited co
  have hr := qualifies_right tr survey visited co
  have hu := qualifies_up tr survey visited co
  have hl := qualifies_left tr survey visited co
  unfold getValidMove firstQualifying directions
  simp only [List.find?, List.mem_cons, List.mem_singleton, forall_eq_or_imp, forall_eq,
    List.not_mem_nil, hd, hr, hu, hl]
  cases survey.Bottom <;> cases survey.Right <;> cases survey.Top <;> cases survey.Left <;>
    cases visited.get (tr co "down") <;> cases visited.get (tr co "right") <;>
    cases visited.get (tr co "up") <;> cases visited.get (tr co "left") <;> simp

/-! ## One pass through the loop -/

theorem getValidMove_some {tr : Coordinate → String → Coordinate} {survey : Survey}
    {visited : Visited} {co : Coordinate} {m : String}
    (h : getValidMove tr survey visited co = (m, none)) :
    isMove m ∧ wallFlag survey m = false ∧ visited.get (tr co m) = false := by
  unfold getValidMove at h
  split at h
  · next h1 =>
    obtain ⟨rfl, -⟩ := Prod.mk.inj h
    simp at h1
    exact ⟨by decide, by simp [wallFlag, h1.1], h1.2⟩
  split at h
  · next h1 =>
    obtain ⟨rfl, -⟩ := Prod.mk.inj h
    simp at h1
    exact ⟨by decide, by simp [wallFlag, h1.1], h1.2⟩
  split at h
  · next h1 =>
    obtain ⟨rfl, -⟩ := Prod.mk.inj h
    simp at h1
    exact ⟨by decide, by simp [wallFlag, h1.1], h1.2⟩
  split at h
  · next h1 =>
    obtain ⟨rfl, -⟩ := Prod.mk.inj h
    simp at h1
    exact ⟨by decide, by simp [wallFlag, h1.1], h1.2⟩
  · simp at h

theorem isMove_ReverseMove {m : String} (h : isMove m) : isMove (ReverseMove m) := by
  rcases h with rfl | rfl | rfl | rfl <;> decide

theorem iterStep_next {σ : Type} (env : Env σ) {s s1 : IterState σ}
    (h : iterStep env s = Step.next s1) : stepRel env s s1 := by
  unfold iterStep at h
  split at h
  · cases h
  split at h
  · cases h
  next he =>
  refine ⟨he, ?_⟩
  split at h
  · next move hg =>
    left
    refine ⟨move, hg, ?_⟩
    unfold executeMove at h
    split at h
    · cases h
    · next survey err w1 hm =>
      cases h
      exact ⟨rfl, rfl, rfl, hm⟩
  · next x e hg =>
    right
    have hne : (getValidMove env.TranformByMove s.survey s.visited s.co).2 ≠ none := by
      rw [hg]; simp
    rcases List.eq_nil_or_concat s.breadcrumbs.data with hd | ⟨d, v, hd⟩
    · have hp : s.breadcrumbs.Pop = ((Iface.nil, some Err.ErrEmptyStack), s.breadcrumbs) := by
        simp [Stack.Pop, Stack.Len, hd]
      rw [hp] at h
      simp at h
    · rw [List.concat_eq_append] at hd
      have hp : s.breadcrumbs.Pop = ((v, none), ⟨d, s.breadcrumbs.cap⟩) := by
        have hs : s.breadcrumbs = ⟨d ++ [v], s.breadcrumbs.cap⟩ := by
          cases hb : s.breadcrumbs with
          | mk dat cap => rw [hb] at hd; simp at hd; simp [hd]
        rw [hs]
        exact Stack.pop_snoc d v _
      rw [hp] at h
      cases v with
      | nil => simp at h
      | other t => simp at h
      | str m =>
        simp only at h
        split at h
        · cases h
        · next survey err w1 hm =>
          cases h
          exact ⟨m, d, hne, hd, rfl, rfl, rfl, hm⟩

theorem Stack.pop_cases (s : Stack) :
    (s.Len = 0 ∧ s.Pop = ((Iface.nil, some Err.ErrEmptyStack), s)) ∨
    (∃ d v, s.data = d ++ [v] ∧ s.Pop = ((v, none), ⟨d, s.cap⟩)) := by
  rcases List.eq_nil_or_concat s.data with hd | ⟨d, v, hd⟩
  · left
    simp [Stack.Pop, Stack.Len, hd]
  · right
    rw [List.concat_eq_append] at hd
    refine ⟨d, v, hd, ?_⟩
    have hs : s = ⟨d ++ [v], s.cap⟩ := by
      cases s with
      | mk dat cap => simp at hd; simp [hd]
    rw [hs]
    exact Stack.pop_snoc d v _

/-- What a pass that returns without a panic has done: nothing to the state;
it reports the length of the history on victory, the error otherwise, and "no
solution" when no move is allowed and the history is empty. -/
theorem iterStep_halt {σ : Type} (env : Env σ) {s s1 : IterState σ} {o : Outcome}
    (h : iterStep env s = Step.halt o s1) (hp : o ≠ Outcome.panicked) :
    s1 = s ∧
    ((o = Outcome.solved s.breadcrumbs.Len ∧ s.err = some Err.ErrVictory) ∨
     (∃ e, o = Outcome.failed e ∧ s.err = some e ∧ e ≠ Err.ErrVictory) ∨
     (o = Outcome.noSolution ∧ s.err = none ∧ s.breadcrumbs.Len = 0 ∧
       (getValidMove env.TranformByMove s.survey s.visited s.co).2 ≠ none)) := by
  unfold iterStep at h
  split at h
  · next hv =>
    cases h
    exact ⟨rfl, Or.inl ⟨rfl, hv⟩⟩
  next hv =>
  split at h
  · next e he =>
    cases h
    refine ⟨rfl, Or.inr (Or.inl ⟨e, rfl, he, ?_⟩)⟩
    intro hc
    exact hv (by rw [he, hc])
  next he =>
  split at h
  · next move hg =>
    unfold executeMove at h
    split at h
    · cases h
      exact absurd rfl hp
    · cases h
  · next x e hg =>
    have hne : (getValidMove env.TranformByMove s.survey s.visited s.co).2 ≠ none := by
      rw [hg]; simp
    rcases Stack.pop_cases s.breadcrumbs with ⟨hl, hpop⟩ | ⟨d, v, hd, hpop⟩
    · rw [hpop] at h
      simp only at h
      cases h
      exact ⟨rfl, Or.inr (Or.inr ⟨rfl, he, hl, hne⟩)⟩
    · rw [hpop] at h
      cases v with
      | nil => simp only at h; cases h; exact absurd rfl hp
      | other t => simp only at h; cases h; exact absurd rfl hp
      | str m =>
        simp only at h
        split at h
        · cases h; exact absurd rfl hp
        · cases h

/-- The history after a pass: either the move chosen by `getValidMove` has
been pushed, or the history is no longer than before. -/
theorem iterStep_breadcrumbs {σ : Type} (env : Env σ) (s : IterState σ) :
    (∃ m, s.err = none ∧
      getValidMove env.TranformByMove s.survey s.visited s.co = (m, none) ∧
      (iterStep env s).state.breadcrumbs = s.breadcrumbs.Push env.grow (Iface.str m)) ∨
    (iterStep env s).state.breadcrumbs.Len ≤ s.breadcrumbs.Len := by
  unfold iterStep
  split
  · right; exact Nat.le_refl _
  split
  · right; exact Nat.le_refl _
  next he =>
  split
  · next move hg =>
    left
    refine ⟨move, he, hg, ?_⟩
    unfold executeMove
    split <;> rfl
  · right
    rcases Stack.pop_cases s.breadcrumbs with ⟨hl, hpop⟩ | ⟨d, v, hd, hpop⟩
    · rw [hpop]
      exact Nat.le_refl _
    · rw [hpop]
      have hle : (Stack.mk d s.breadcrumbs.cap).Len ≤ s.breadcrumbs.Len := by
        simp [Stack.Len, hd]
      cases v with
      | nil => exact hle
      | other t => exact hle
      | str m =>
        simp only
        split <;> exact hle

/-- A state reached after `n` passes from which the next pass returns is
where the loop ends, whatever fuel is left. -/
theorem iterLoop_of_iterAt {σ : Type} (env : Env σ) (n : Nat) (s0 s : IterState σ)
    (h : iterAt env n s0 = some s) (fuel : Nat) :
    iterLoop env (n + fuel) s0 = iterLoop env fuel s := by
  induction n generalizing s fuel with
  | zero =>
    simp [iterAt] at h
    simp [h]
  | succ n ih =>
    simp only [iterAt] at h
    cases h1 : iterAt env n s0 with
    | none => simp [h1] at h
    | some s1 =>
      rw [h1] at h
      simp only at h
      cases h2 : iterStep env s1 with
      | halt o t => simp [h2] at h
      | next t =>
        rw [h2] at h
        simp only [Option.some.injEq] at h
        subst h
        have e : n + 1 + fuel = n + (fuel + 1) := by omega
        rw [e, ih s1 h1 (fuel + 1)]
        simp [iterLoop, h2]

theorem iterAt_of_iterLoop {σ : Type} (env : Env σ) (fuel : Nat) (s0 t : IterState σ)
    (o : Outcome) (h : iterLoop env fuel s0 = some (o, t)) :
    ∃ n s, n < fuel ∧ iterAt env n s0 = some s ∧ iterStep env s = Step.halt o t := by
  induction fuel generalizing s0 with
  | zero => simp [iterLoop] at h
  | succ fuel ih =>
    simp only [iterLoop] at h
    cases h2 : iterStep env s0 with
    | halt o1 t1 =>
      rw [h2] at h
      simp only [Option.some.injEq, Prod.mk.injEq] at h
      obtain ⟨rfl, rfl⟩ := h
      exact ⟨0, s0, by omega, rfl, h2⟩
    | next s1 =>
      rw [h2] at h
      simp only at h
      obtain ⟨n, s, hn, hs, hh⟩ := ih s1 h
      refine ⟨n + 1, s, by omega, ?_, hh⟩
      have key : ∀ k u, iterAt env k s1 = some u → iterAt env (k + 1) s0 = some u := by
        intro k
        induction k with
        | zero =>
          intro u hu
          simp [iterAt] at hu
          simp [iterAt, h2, hu]
        | succ k ihk =>
          intro u hu
          simp only [iterAt] at hu
          cases h3 : iterAt env k s1 with
          | none => simp [h3] at hu
          | some v =>
            rw [h3] at hu
            have := ihk v h3
            rw [iterAt, this]
            exact hu
      exact key n s hs

/-! ## Runs of the loop -/

theorem iterAt_induction {σ : Type} (env : Env σ) (s0 : IterState σ)
    (P : Nat → IterState σ → Prop) (h0 : P 0 s0)
    (hstep : ∀ n s s1, iterAt env n s0 = some s → P n s → iterStep env s = Step.next s1 →
      P (n + 1) s1) :
    ∀ n s, iterAt env n s0 = some s → P n s := by
  intro n
  induction n with
  | zero =>
    intro s h
    simp [iterAt] at h
    rw [← h]
    exact h0
  | succ n ih =>
    intro s h
    simp only [iterAt] at h
    cases h1 : iterAt env n s0 with
    | none => simp [h1] at h
    | some s1 =>
      rw [h1] at h
      simp only at h
      cases h2 : iterStep env s1 with
      | halt o t => simp [h2] at h
      | next t =>
        rw [h2] at h
        simp only [Option.some.injEq] at h
        subst h
        exact hstep n s1 t h1 (ih s1 h1) h2

theorem iterAt_succ {σ : Type} (env : Env σ) {s0 s s1 : IterState σ} {n : Nat}
    (hs : iterAt env n s0 = some s) (hstep : iterStep env s = Step.next s1) :
    iterAt env (n + 1) s0 = some s1 := by
  simp only [iterAt, hs, hstep]

theorem Move_log {σ : Type} (env : Env σ) {m : String} (hm : isMove m) (w : World σ) :
    (Move env m w).2.log = w.log ++ ["http://127.0.0.1:" ++ env.port ++ "/move/" ++ m] := by
  have hg : m = "left" ∨ m = "right" ∨ m = "up" ∨ m = "down" := by
    rcases hm with h | h | h | h <;> simp [h]
  unfold Move
  rw [if_pos hg]
  simp only [makeRequest]
  split
  · next msg w1 hr =>
    obtain ⟨-, rfl⟩ := Prod.mk.inj hr
    rfl
  · next contents w1 hr =>
    obtain ⟨-, rfl⟩ := Prod.mk.inj hr
    split
    · rfl
    · split <;> rfl

theorem map_str_eq_snoc {ms : List String} {d : List Iface} {m : String}
    (h : ms.map Iface.str = d ++ [Iface.str m]) :
    ∃ ms0, ms = ms0 ++ [m] ∧ d = ms0.map Iface.str := by
  rcases List.eq_nil_or_concat ms with rfl | ⟨ms0, m0, rfl⟩
  · simp at h
  · rw [List.concat_eq_append, List.map_append] at h
    obtain ⟨h1, h2⟩ := List.append_inj' h (by simp)
    simp at h2
    exact ⟨ms0, by rw [List.concat_eq_append, h2], h1.symm⟩

/-- Started with an empty history, after `n` passes the history holds moves
only, `n` requests have been made, and the length of the history is `n` less
twice the number of backtracking passes. -/
theorem iterAt_counts {σ : Type} (env : Env σ) (survey : Survey) (breadcrumbs : Stack)
    (w : World σ) (hb : breadcrumbs.Len = 0) :
    ∀ n s, iterAt env n (iterInit survey breadcrumbs w) = some s →
      (∃ ms : List String, s.breadcrumbs.data = ms.map Iface.str ∧ ∀ m ∈ ms, isMove m) ∧
      s.world.log.length = w.log.length + n ∧
      s.breadcrumbs.Len + 2 * backtracks env n (iterInit survey breadcrumbs w) = n := by
  apply iterAt_induction
  · refine ⟨⟨[], ?_, by simp⟩, by simp [iterInit], ?_⟩
    · have : breadcrumbs.data = [] := List.length_eq_zero.mp hb
      simpa [iterInit] using this
    · simpa [backtracks, iterInit] using hb
  · intro n s s1 hs ih hstep
    obtain ⟨⟨ms, hdata, hmoves⟩, hlog, hlen⟩ := ih
    have hbt : backtracks env (n + 1) (iterInit survey breadcrumbs w)
        = backtracks env n (iterInit survey breadcrumbs w)
          + (if s1.breadcrumbs.Len < s.breadcrumbs.Len then 1 else 0) := by
      simp [backtracks, hs, hstep, Step.state]
    rw [hbt]
    obtain ⟨-, hrel⟩ := iterStep_next env hstep
    rcases hrel with ⟨m, hg, hbc, -, -, hmv⟩ | ⟨m, d, -, hd, hbc, -, -, hmv⟩
    · have hm := (getValidMove_some hg).1
      have hl := Move_log env hm s.world
      rw [hmv] at hl
      simp only at hl
      have hlen1 : s1.breadcrumbs.Len = s.breadcrumbs.Len + 1 := by
        rw [hbc]; simp [Stack.Push, Stack.Len]
      refine ⟨⟨ms ++ [m], ?_, ?_⟩, ?_, ?_⟩
      · rw [hbc]; simp [Stack.Push, hdata]
      · intro x hx
        rcases List.mem_append.mp hx with hx | hx
        · exact hmoves x hx
        · simp at hx; rw [hx]; exact hm
      · rw [hl]; simp; omega
      · rw [hlen1]
        have : ¬ (s.breadcrumbs.Len + 1 < s.breadcrumbs.Len) := by omega
        simp only [this, if_false]
        omega
    · rw [hdata] at hd
      obtain ⟨ms0, rfl, rfl⟩ := map_str_eq_snoc hd
      have hm : isMove m := hmoves m (by simp)
      have hl := Move_log env (isMove_ReverseMove hm) s.world
      rw [hmv] at hl
      simp only at hl
      have hlen0 : s.breadcrumbs.Len = ms0.length + 1 := by
        simp [Stack.Len, hdata]
      have hlen1 : s1.breadcrumbs.Len = ms0.length := by
        rw [hbc]; simp [Stack.Len]
      refine ⟨⟨ms0, by rw [hbc], ?_⟩, ?_, ?_⟩
      · intro x hx
        exact hmoves x (List.mem_append.mpr (Or.inl hx))
      · rw [hl]; simp; omega
      · rw [hlen1, hlen0]
        have : ms0.length < ms0.length + 1 := by omega
        simp only [this, if_true]
        rw [hlen0] at hlen
        omega

/-- Started with an empty history, and with `TranformByMove` undoing a move
under its inverse, every state reached replays its history. -/
theorem iterAt_replays {σ : Type} (env : Env σ) (survey : Survey) (breadcrumbs : Stack)
    (w : World σ) (hb : breadcrumbs.Len = 0)
    (hinv : ∀ c m, isMove m →
      env.TranformByMove (env.TranformByMove c m) (ReverseMove m) = c) :
    ∀ n s, iterAt env n (iterInit survey breadcrumbs w) = some s → ReplaysHistory env s := by
  apply iterAt_induction env _ (fun _ s => ReplaysHistory env s)
  · refine ⟨[], ?_, by simp, by simp [iterInit, replay]⟩
    have : breadcrumbs.data = [] := List.length_eq_zero.mp hb
    simpa [iterInit] using this
  · intro n s s1 _ ih hstep
    obtain ⟨ms, hdata, hmoves, hco⟩ := ih
    obtain ⟨-, hrel⟩ := iterStep_next env hstep
    rcases hrel with ⟨m, hg, hbc, hc, -, -⟩ | ⟨m, d, -, hd, hbc, hc, -, -⟩
    · have hm := (getValidMove_some hg).1
      refine ⟨ms ++ [m], ?_, ?_, ?_⟩
      · rw [hbc]; simp [Stack.Push, hdata]
      · intro x hx
        rcases List.mem_append.mp hx with hx | hx
        · exact hmoves x hx
        · simp at hx; rw [hx]; exact hm
      · rw [hc, hco]; simp [replay, List.foldl_append]
    · rw [hdata] at hd
      obtain ⟨ms0, rfl, rfl⟩ := map_str_eq_snoc hd
      have hm : isMove m := hmoves m (by simp)
      refine ⟨ms0, by rw [hbc], ?_, ?_⟩
      · intro x hx
        exact hmoves x (List.mem_append.mpr (Or.inl hx))
      · rw [hc, hco]
        simp only [replay, List.foldl_append, List.foldl_cons, List.foldl_nil]
        exact hinv _ m hm

theorem TranformByMove_undo (c : Coordinate) (m : String) (hm : isMove m) :
    TranformByMove (TranformByMove c m) (ReverseMove m) = c := by
  rcases hm with rfl | rfl | rfl | rfl <;>
    simp [TranformByMove, ReverseMove]

/-! ## Properties of Iterate -/

/-- C2: in every run of `Iterate`, whenever a pass pushes a move onto the
history, that move is the one chosen by `getValidMove`, it is one of the four
moves, and its target coordinate is not in the visited set of the state in
which it was chosen. -/
theorem Iterate_forward_target_unvisited {σ : Type} (env : Env σ) (survey : Survey)
    (breadcrumbs : Stack) (w : World σ) (n : Nat) (s : IterState σ)
    (hs : iterAt env n (iterInit survey breadcrumbs w) = some s)
    (hpush : s.breadcrumbs.Len < (iterStep env s).state.breadcrumbs.Len) :
    ∃ m, isMove m ∧
      getValidMove env.TranformByMove s.survey s.visited s.co = (m, none) ∧
      (iterStep env s).state.breadcrumbs.data = s.breadcrumbs.data ++ [Iface.str m] ∧
      s.visited.get (env.TranformByMove s.co m) = false := by
  have _ := hs
  rcases iterStep_breadcrumbs env s with ⟨m, -, hg, hbc⟩ | hle
  · obtain ⟨hm, -, hv⟩ := getValidMove_some hg
    exact ⟨m, hm, hg, by rw [hbc]; rfl, hv⟩
  · omega

/-- The scripted run of `deadEndScript`, third pass: the state after two
passes is back at the start with (0,1) visited, and the pass pushes a move
whose target is not visited. -/
theorem Iterate_forward_target_unvisited_witness :
    ∃ m, isMove m ∧
      getValidMove scriptedEnv.TranformByMove deadEndSurvey
        [(⟨0, 1⟩, true), (⟨0, 0⟩, true)] ⟨0, 0⟩ = (m, none) ∧
      (iterStep scriptedEnv
        ⟨deadEndSurvey, ⟨0, 0⟩, none, [(⟨0, 1⟩, true), (⟨0, 0⟩, true)], ⟨[], 100⟩,
          ⟨[HttpResult.body [1, 1, 1, 1, 1]],
            ["http://127.0.0.1:8080/move/down", "http://127.0.0.1:8080/move/up"]⟩⟩
        ).state.breadcrumbs.data = [] ++ [Iface.str m] ∧
      Visited.get [(⟨0, 1⟩, true), (⟨0, 0⟩, true)]
        (scriptedEnv.TranformByMove ⟨0, 0⟩ m) = false :=
  Iterate_forward_target_unvisited scriptedEnv deadEndSurvey (emptyStack 100)
    ⟨deadEndScript, []⟩ 2
    ⟨deadEndSurvey, ⟨0, 0⟩, none, [(⟨0, 1⟩, true), (⟨0, 0⟩, true)], ⟨[], 100⟩,
      ⟨[HttpResult.body [1, 1, 1, 1, 1]],
        ["http://127.0.0.1:8080/move/down", "http://127.0.0.1:8080/move/up"]⟩⟩
    rfl (by decide)

/-- C3: in every run of `Iterate` started with an empty history, provided
`TranformByMove` undoes a move when applied with its inverse, after every
pass through the loop, and in the state in which `Iterate` returns, the
current coordinate is the start coordinate (0,0) transformed by the moves of
the history in order. -/
theorem Iterate_coordinate_replays_history {σ : Type} (env : Env σ) (survey : Survey)
    (breadcrumbs : Stack) (w : World σ) (hb : breadcrumbs.Len = 0)
    (hinv : ∀ c m, isMove m →
      env.TranformByMove (env.TranformByMove c m) (ReverseMove m) = c) :
    (∀ n s, iterAt env n (iterInit survey breadcrumbs w) = some s → ReplaysHistory env s) ∧
    (∀ fuel o s, Iterate env fuel survey breadcrumbs w = some (o, s) →
      o ≠ Outcome.panicked → ReplaysHistory env s) := by
  refine ⟨iterAt_replays env survey breadcrumbs w hb hinv, ?_⟩
  intro fuel o t h hp
  obtain ⟨n, s, -, hs, hh⟩ := iterAt_of_iterLoop env fuel _ t o h
  obtain ⟨rfl, -⟩ := iterStep_halt env hh hp
  exact iterAt_replays env survey breadcrumbs w hb hinv n _ hs

/-- The scripted run of `deadEndScript`: all its states replay their
history. -/
theorem Iterate_coordinate_replays_history_witness :
    (emptyStack 100).Len = 0 ∧
    (∀ n s, iterAt scriptedEnv n (iterInit deadEndSurvey (emptyStack 100) ⟨deadEndScript, []⟩)
      = some s → ReplaysHistory scriptedEnv s) ∧
    (∀ fuel o s, Iterate scriptedEnv fuel deadEndSurvey (emptyStack 100) ⟨deadEndScript, []⟩
      = some (o, s) → o ≠ Outcome.panicked → ReplaysHistory scriptedEnv s) :=
  ⟨by decide,
   Iterate_coordinate_replays_history scriptedEnv deadEndSurvey (emptyStack 100)
    ⟨deadEndScript, []⟩ (by decide) TranformByMove_undo⟩

/-- C6, as stated, fails: in the scripted run of `deadEndScript` the server
reports victory on the third move issued (down, back up, right), and
`Iterate` reports a solution of one step with a history of one entry. -/
theorem Iterate_victory_on_third_move_reports_one_step :
    (iterAt scriptedEnv 3 (iterInit deadEndSurvey (emptyStack 100) ⟨deadEndScript, []⟩)).map
        (fun s => (s.err, s.world.log.length))
      = some (some Err.ErrVictory, 3) ∧
    (Iterate scriptedEnv 4 deadEndSurvey (emptyStack 100) ⟨deadEndScript, []⟩).map
        (fun r => (r.1, r.2.breadcrumbs.Len, r.2.world.log.length))
      = some (Outcome.solved 1, 1, 3) := by
  decide

/-- C6, amended: in every run of `Iterate` started with an empty history, if
the pass that issued the k-th move ends with the victory signal, then k moves
have been issued in k passes, `Iterate` stops at the next check reporting a
solution whose step count is the length of the history, and that length is k
less twice the number of backtracking moves among the k. -/
theorem Iterate_victory_reports_history_length {σ : Type} (env : Env σ) (survey : Survey)
    (breadcrumbs : Stack) (w : World σ) (k : Nat) (s : IterState σ)
    (hb : breadcrumbs.Len = 0)
    (hs : iterAt env k (iterInit survey breadcrumbs w) = some s)
    (hv : s.err = some Err.ErrVictory) :
    s.world.log.length = w.log.length + k ∧
    (∀ fuel, Iterate env (k + 1 + fuel) survey breadcrumbs w
      = some (Outcome.solved s.breadcrumbs.Len, s)) ∧
    s.breadcrumbs.Len + 2 * backtracks env k (iterInit survey breadcrumbs w) = k := by
  obtain ⟨-, hlog, hlen⟩ := iterAt_counts env survey breadcrumbs w hb k s hs
  refine ⟨hlog, ?_, hlen⟩
  intro fuel
  have e : k + 1 + fuel = k + (fuel + 1) := by omega
  rw [Iterate, e, iterLoop_of_iterAt env k _ s hs (fuel + 1)]
  simp [iterLoop, iterStep, hv]

/-- The scripted run of `deadEndScript`: victory on the third move, one
backtracking move, a solution of one step. -/
theorem Iterate_victory_reports_history_length_witness :
    (1 + 2 * backtracks scriptedEnv 3
        (iterInit deadEndSurvey (emptyStack 100) ⟨deadEndScript, []⟩) = 3) ∧
    (∀ fuel, (Iterate scriptedEnv (3 + 1 + fuel) deadEndSurvey (emptyStack 100)
        ⟨deadEndScript, []⟩).map (fun r => r.1) = some (Outcome.solved 1)) :=
  have h := Iterate_victory_reports_history_length scriptedEnv deadEndSurvey (emptyStack 100)
    ⟨deadEndScript, []⟩ 3
    ⟨⟨true, true, true, true⟩, ⟨1, 0⟩, some Err.ErrVictory,
      [(⟨1, 0⟩, true), (⟨0, 1⟩, true), (⟨0, 0⟩, true)], ⟨[Iface.str "right"], 100⟩,
      ⟨[], ["http://127.0.0.1:8080/move/down", "http://127.0.0.1:8080/move/up",
        "http://127.0.0.1:8080/move/right"]⟩⟩
    (by decide) rfl rfl
  ⟨h.2.2, fun fuel => by rw [h.2.1 fuel]; rfl⟩

/-- C7: in a run of `Iterate` started with an empty history, when
`getValidMove` finds no move while the history is empty, `Iterate` returns
reporting that no solution was found, in the very state it was in, so without
a further request; when this happens at the start, in particular when the
initial survey has all four walls set, no request is made at all. -/
theorem Iterate_stuck_without_request {σ : Type} (env : Env σ) (survey : Survey)
    (breadcrumbs : Stack) (w : World σ) (hb : breadcrumbs.Len = 0) :
    (∀ n s fuel, iterAt env n (iterInit survey breadcrumbs w) = some s →
      s.err = none →
      (getValidMove env.TranformByMove s.survey s.visited s.co).2 ≠ none →
      s.breadcrumbs.Len = 0 →
      Iterate env (n + 1 + fuel) survey breadcrumbs w = some (Outcome.noSolution, s)) ∧
    ((getValidMove env.TranformByMove survey (Visited.set [] ⟨0, 0⟩ true) ⟨0, 0⟩).2 ≠ none →
      ∀ fuel, Iterate env (fuel + 1) survey breadcrumbs w
          = some (Outcome.noSolution, iterInit survey breadcrumbs w) ∧
        (iterInit survey breadcrumbs w).world.log = w.log) ∧
    (∀ fuel, Iterate env (fuel + 1) ⟨true, true, true, true⟩ breadcrumbs w
        = some (Outcome.noSolution, iterInit ⟨true, true, true, true⟩ breadcrumbs w)) := by
  have stuck : ∀ s : IterState σ, s.err = none →
      (getValidMove env.TranformByMove s.survey s.visited s.co).2 ≠ none →
      s.breadcrumbs.Len = 0 → iterStep env s = Step.halt Outcome.noSolution s := by
    intro s he hg hl
    have hpop : s.breadcrumbs.Pop = ((Iface.nil, some Err.ErrEmptyStack), s.breadcrumbs) := by
      simp [Stack.Pop, hl]
    cases s with
    | mk sv co err vis bc wd =>
      simp only at he hg hl hpop
      subst he
      unfold iterStep
      simp only [reduceCtorEq, if_false]
      split
      · next move hm => rw [hm] at hg; simp at hg
      · rw [hpop]
  have start : ∀ sv : Survey,
      (getValidMove env.TranformByMove sv (Visited.set [] ⟨0, 0⟩ true) ⟨0, 0⟩).2 ≠ none →
      ∀ fuel, Iterate env (fuel + 1) sv breadcrumbs w
        = some (Outcome.noSolution, iterInit sv breadcrumbs w) := by
    intro sv hg fuel
    have := stuck (iterInit sv breadcrumbs w) rfl hg hb
    simp [Iterate, iterLoop, this]
  refine ⟨?_, fun hg fuel => ⟨start survey hg fuel, rfl⟩, ?_⟩
  · intro n s fuel hs he hg hl
    have e : n + 1 + fuel = n + (fuel + 1) := by omega
    rw [Iterate, e, iterLoop_of_iterAt env n _ s hs (fuel + 1)]
    simp [iterLoop, stuck s he hg hl]
  · intro fuel
    exact start _ (by simp [getValidMove]) fuel

/-- The scripted server with a start cell walled on all sides: no solution,
and the log of requests stays empty. -/
theorem Iterate_stuck_without_request_witness :
    (Iterate scriptedEnv 1 ⟨true, true, true, true⟩ (emptyStack 100) ⟨deadEndScript, []⟩).map
      (fun r => (r.1, r.2.world.log)) = some (Outcome.noSolution, []) :=
  have h := (Iterate_stuck_without_request scriptedEnv ⟨true, true, true, true⟩
    (emptyStack 100) ⟨deadEndScript, []⟩ (by decide)).2.2 0
  by rw [h]; rfl

/-! ## The transport -/

theorem isMove_guard {m : String} :
    (m = "left" ∨ m = "right" ∨ m = "up" ∨ m = "down") ↔ isMove m := by
  unfold isMove
  constructor
  · rintro (h | h | h | h) <;> simp [h]
  · rintro (h | h | h | h) <;> simp [h]

/-- `Move` on a valid direction, by the answer of the server. -/
theorem Move_valid {σ : Type} (env : Env σ) {m : String} (hm : isMove m) (w : World σ) :
    Move env m w =
      ((match (env.httpGet w.auth (moveUrl env m)).1 with
        | HttpResult.failure msg => some (Survey.zero, some (Err.transport msg))
        | HttpResult.body contents => (ToReply env contents).map replyResult),
       ⟨(env.httpGet w.auth (moveUrl env m)).2, w.log ++ [moveUrl env m]⟩) := by
  unfold Move
  rw [if_pos (isMove_guard.mpr hm)]
  simp only [makeRequest, moveUrl]
  cases h : (env.httpGet w.auth ("http://127.0.0.1:" ++ env.port ++ "/move/" ++ m)).1 with
  | failure msg => rfl
  | body contents =>
    simp only
    cases h2 : ToReply env contents with
    | none => rfl
    | some rep =>
      simp only [Option.map_some', replyResult]
      split <;> rfl

theorem Move_invalid {σ : Type} (env : Env σ) {m : String} (hm : ¬ isMove m) (w : World σ) :
    Move env m w = (some (Survey.zero, some Err.invalidDirection), w) := by
  unfold Move
  rw [if_neg (fun h => hm (isMove_guard.mp h))]

/-- C11: for a string that is not one of the four directions `Move` returns
the empty survey and the invalid-direction error and makes no request; for a
valid direction it makes exactly one request, to the URL of that direction. -/
theorem Move_requests {σ : Type} (env : Env σ) (direction : String) (w : World σ) :
    (¬ isMove direction →
      Move env direction w = (some (Survey.zero, some Err.invalidDirection), w)) ∧
    (isMove direction →
      (Move env direction w).2.log = w.log ++ [moveUrl env direction] ∧
      (Move env direction w).2.auth = (env.httpGet w.auth (moveUrl env direction)).2) := by
  refine ⟨fun h => Move_invalid env h w, fun h => ?_⟩
  rw [Move_valid env h w]
  exact ⟨rfl, rfl⟩

/-- C12, as stated, fails: the scripted server answers the move "down" with
a body that the decoder rejects, and `Move` returns a nil error. -/
theorem Move_malformed_returns_nil_error :
    (scriptedEnv.jsonUnmarshal [7]).failed = true ∧
    (Move scriptedEnv "down" ⟨[HttpResult.body [7]], []⟩).1 = some (Survey.zero, none) := by
  decide

/-- C12, amended: for a valid direction, when the request fails `Move`
returns the transport error with the empty survey; when a body is received
that the decoder rejects, the rejection is dropped and `Move` returns what it
returns for any decoded reply: the survey the decoder left, with `ErrVictory`
if the victory flag it left is set and a nil error otherwise. -/
theorem Move_failure_and_malformed {σ : Type} (env : Env σ) (direction : String)
    (w : World σ) (hd : isMove direction) :
    (∀ msg, (env.httpGet w.auth (moveUrl env direction)).1 = HttpResult.failure msg →
      (Move env direction w).1 = some (Survey.zero, some (Err.transport msg))) ∧
    (∀ contents rep,
      (env.httpGet w.auth (moveUrl env direction)).1 = HttpResult.body contents →
      (env.jsonUnmarshal contents).failed = true →
      (env.jsonUnmarshal contents).res = some rep →
      (Move env direction w).1
        = some (rep.Survey, if rep.Victory = true then some Err.ErrVictory else none)) := by
  rw [Move_valid env hd w]
  constructor
  · intro msg h
    simp only [h]
  · intro contents rep h _ hr
    simp only [h, ToReply, hr, Option.map_some', replyResult]

/-- The scripted server: a refused connection gives the transport error, a
rejected body gives the zero survey without error. -/
theorem Move_failure_and_malformed_witness :
    (Move scriptedEnv "up" ⟨[], []⟩).1
      = some (Survey.zero, some (Err.transport "connection refused")) ∧
    (Move scriptedEnv "up" ⟨[HttpResult.body [7]], []⟩).1 = some (Survey.zero, none) :=
  ⟨(Move_failure_and_malformed scriptedEnv "up" ⟨[], []⟩ (by decide)).1
      "connection refused" rfl,
   (Move_failure_and_malformed scriptedEnv "up" ⟨[HttpResult.body [7]], []⟩ (by decide)).2
      [7] Reply.zero rfl rfl rfl⟩

/-- C13: for a valid direction and a reply that was received and decoded,
`Move` returns the survey of the reply, with `ErrVictory` exactly when the
victory flag of the reply is set and with a nil error otherwise; when the
request fails the error returned is the transport error, not `ErrVictory`. -/
theorem Move_victory_iff_flag {σ : Type} (env : Env σ) (direction : String) (w : World σ)
    (hd : isMove direction) :
    (∀ contents rep,
      (env.httpGet w.auth (moveUrl env direction)).1 = HttpResult.body contents →
      ToReply env contents = some rep →
      ∃ e, (Move env direction w).1 = some (rep.Survey, e) ∧
        (e = some Err.ErrVictory ↔ rep.Victory = true) ∧
        (rep.Victory = false → e = none)) ∧
    (∀ msg, (env.httpGet w.auth (moveUrl env direction)).1 = HttpResult.failure msg →
      ∃ sv e, (Move env direction w).1 = some (sv, some e) ∧ e ≠ Err.ErrVictory) := by
  rw [Move_valid env hd w]
  constructor
  · intro contents rep h hr
    simp only [h, hr, Option.map_some', replyResult]
    cases hv : rep.Victory with
    | true => exact ⟨_, rfl, by simp, by simp⟩
    | false => exact ⟨_, rfl, by simp, by simp⟩
  · intro msg h
    simp only [h]
    exact ⟨_, _, rfl, by simp⟩

/-- The scripted server: a reply with the victory flag gives `ErrVictory`,
a reply without it gives a nil error, each with the survey of the reply. -/
theorem Move_victory_iff_flag_witness :
    (∃ e, (Move scriptedEnv "right" ⟨[HttpResult.body [1, 1, 1, 0, 1]], []⟩).1
        = some (⟨true, true, true, false⟩, e) ∧
      (e = some Err.ErrVictory ↔ true = true) ∧ (true = false → e = none)) ∧
    (∃ e, (Move scriptedEnv "right" ⟨[HttpResult.body [0, 1, 0, 0, 0]], []⟩).1
        = some (⟨false, true, false, false⟩, e) ∧
      (e = some Err.ErrVictory ↔ false = true) ∧ (false = false → e = none)) :=
  ⟨(Move_victory_iff_flag scriptedEnv "right" ⟨[HttpResult.body [1, 1, 1, 0, 1]], []⟩
      (by decide)).1 [1, 1, 1, 0, 1] ⟨⟨true, true, true, false⟩, true, ""⟩ rfl rfl,
   (Move_victory_iff_flag scriptedEnv "right" ⟨[HttpResult.body [0, 1, 0, 0, 0]], []⟩
      (by decide)).1 [0, 1, 0, 0, 0] ⟨⟨false, true, false, false⟩, false, ""⟩ rfl rfl⟩

/-- C19: with `TranformByMove` as the specification gives it, applying a move
and then its inverse leads back to the coordinate, for every coordinate and
each of the four moves. -/
theorem TranformByMove_ReverseMove_cancel (c : Coordinate) :
    TranformByMove (TranformByMove c "up") (ReverseMove "up") = c ∧
    TranformByMove (TranformByMove c "down") (ReverseMove "down") = c ∧
    TranformByMove (TranformByMove c "left") (ReverseMove "left") = c ∧
    TranformByMove (TranformByMove c "right") (ReverseMove "right") = c := by
  refine ⟨?_, ?_, ?_, ?_⟩ <;> simp [TranformByMove, ReverseMove]

/-! ## Errors and panics in a run -/

theorem Move_err_of_valid {σ : Type} (env : Env σ) {m : String} (hm : isMove m)
    {w w1 : World σ} {sv : Survey} {err : Option Err}
    (h : Move env m w = (some (sv, err), w1)) : err ≠ some Err.invalidDirection := by
  rw [Move_valid env hm w] at h
  obtain ⟨h1, -⟩ := Prod.mk.inj h
  cases hr : (env.httpGet w.auth (moveUrl env m)).1 with
  | failure msg =>
    rw [hr] at h1
    simp only [Option.some.injEq, Prod.mk.injEq] at h1
    rw [← h1.2]; simp
  | body contents =>
    rw [hr] at h1
    simp only at h1
    cases h2 : ToReply env contents with
    | none => rw [h2] at h1; simp at h1
    | some rep =>
      rw [h2] at h1
      simp only [Option.map_some', replyResult, Option.some.injEq, Prod.mk.injEq] at h1
      rw [← h1.2]
      split <;> simp

/-- A pass that ends in a panic has either got no reply out of `Move`, on the
move chosen or on the inverse of the move popped, or has popped a value that
is not a string. -/
theorem iterStep_panicked {σ : Type} (env : Env σ) {s t : IterState σ}
    (h : iterStep env s = Step.halt Outcome.panicked t) :
    s.err = none ∧
    ((∃ m, getValidMove env.TranformByMove s.survey s.visited s.co = (m, none) ∧
        Move env m s.world = (none, t.world)) ∨
     (∃ d m, (getValidMove env.TranformByMove s.survey s.visited s.co).2 ≠ none ∧
        s.breadcrumbs.data = d ++ [Iface.str m] ∧
        Move env (ReverseMove m) s.world = (none, t.world)) ∨
     (∃ d v, s.breadcrumbs.data = d ++ [v] ∧ (∀ m, v ≠ Iface.str m) ∧
        t.world = s.world)) := by
  unfold iterStep at h
  split at h
  · cases h
  split at h
  · cases h
  next he =>
  refine ⟨he, ?_⟩
  split at h
  · next move hg =>
    left
    unfold executeMove at h
    split at h
    · next w1 hm =>
      cases h
      exact ⟨move, hg, hm⟩
    · cases h
  · next x e hg =>
    right
    have hne : (getValidMove env.TranformByMove s.survey s.visited s.co).2 ≠ none := by
      rw [hg]; simp
    rcases Stack.pop_cases s.breadcrumbs with ⟨hl, hpop⟩ | ⟨d, v, hd, hpop⟩
    · rw [hpop] at h
      simp only at h
      cases h
    · rw [hpop] at h
      cases v with
      | nil =>
        simp only at h; cases h
        exact Or.inr ⟨d, Iface.nil, hd, by simp, rfl⟩
      | other k =>
        simp only at h; cases h
        exact Or.inr ⟨d, Iface.other k, hd, by simp, rfl⟩
      | str m =>
        simp only at h
        split at h
        · next w1 hm =>
          cases h
          exact Or.inl ⟨d, m, hne, hd, hm⟩
        · cases h

/-- Started with an empty history, no state reached carries the
invalid-direction error. -/
theorem iterAt_err_valid {σ : Type} (env : Env σ) (survey : Survey) (breadcrumbs : Stack)
    (w : World σ) (hb : breadcrumbs.Len = 0) :
    ∀ n s, iterAt env n (iterInit survey breadcrumbs w) = some s →
      s.err ≠ some Err.invalidDirection := by
  apply iterAt_induction
  · simp [iterInit]
  · intro n s s1 hs _ hstep
    obtain ⟨⟨ms, hdata, hmoves⟩, -, -⟩ := iterAt_counts env survey breadcrumbs w hb n s hs
    obtain ⟨-, hrel⟩ := iterStep_next env hstep
    rcases hrel with ⟨m, hg, -, -, -, hmv⟩ | ⟨m, d, -, hd, -, -, -, hmv⟩
    · exact Move_err_of_valid env (getValidMove_some hg).1 hmv
    · rw [hdata] at hd
      obtain ⟨ms0, rfl, rfl⟩ := map_str_eq_snoc hd
      have hm : isMove m := hmoves m (by simp)
      exact Move_err_of_valid env (isMove_ReverseMove hm) hmv

theorem ReverseMove_ne_empty {m : String} (hm : isMove m) : ReverseMove m ≠ "" := by
  rcases hm with rfl | rfl | rfl | rfl <;> decide

/-- A pass on a state without error in which `getValidMove` returns a move:
the move is pushed and issued, and what `Move` returns becomes the survey and
the error of the next state. -/
theorem iterStep_forward {σ : Type} (env : Env σ) (s : IterState σ) (m : String)
    (sv : Survey) (e : Option Err) (w1 : World σ) (he : s.err = none)
    (hg : getValidMove env.TranformByMove s.survey s.visited s.co = (m, none))
    (hm : Move env m s.world = (some (sv, e), w1)) :
    iterStep env s = Step.next ⟨sv, env.TranformByMove s.co m, e,
      s.visited.set (env.TranformByMove s.co m) true,
      s.breadcrumbs.Push env.grow (Iface.str m), w1⟩ := by
  unfold iterStep
  rw [he]
  simp only [reduceCtorEq, if_false, hg, executeMove, hm]

/-- A pass on a state without error in which `getValidMove` finds no move and
the history ends with the move `m`: the move is popped, its inverse issued,
and what `Move` returns becomes the survey and the error of the next state. -/
theorem iterStep_backward {σ : Type} (env : Env σ) (s : IterState σ) (m : String)
    (d : List Iface) (sv : Survey) (e : Option Err) (w1 : World σ) (he : s.err = none)
    (hg : (getValidMove env.TranformByMove s.survey s.visited s.co).2 ≠ none)
    (hd : s.breadcrumbs.data = d ++ [Iface.str m])
    (hm : Move env (ReverseMove m) s.world = (some (sv, e), w1)) :
    iterStep env s = Step.next ⟨sv, env.TranformByMove s.co (ReverseMove m), e,
      s.visited, ⟨d, s.breadcrumbs.cap⟩, w1⟩ := by
  have hpop : s.breadcrumbs.Pop = ((Iface.str m, none), ⟨d, s.breadcrumbs.cap⟩) := by
    have hs : s.breadcrumbs = ⟨d ++ [Iface.str m], s.breadcrumbs.cap⟩ := by
      cases hb : s.breadcrumbs with
      | mk dat cap => rw [hb] at hd; simp at hd; simp [hd]
    rw [hs]
    exact Stack.pop_snoc d _ _
  unfold iterStep
  rw [he]
  simp only [reduceCtorEq, if_false]
  cases hgv : getValidMove env.TranformByMove s.survey s.visited s.co with
  | mk x o =>
    cases o with
    | none => rw [hgv] at hg; exact absurd rfl hg
    | some e0 =>
      simp only [hpop, hm]

/-- A state that carries an error other than victory is where `Iterate`
returns, with that error. -/
theorem Iterate_failed_at {σ : Type} (env : Env σ) (survey : Survey) (breadcrumbs : Stack)
    (w : World σ) (n : Nat) (s : IterState σ) (e : Err)
    (hs : iterAt env n (iterInit survey breadcrumbs w) = some s)
    (he : s.err = some e) (hne : e ≠ Err.ErrVictory) (fuel : Nat) :
    Iterate env (n + 1 + fuel) survey breadcrumbs w = some (Outcome.failed e, s) := by
  have e2 : n + 1 + fuel = n + (fuel + 1) := by omega
  rw [Iterate, e2, iterLoop_of_iterAt env n _ s hs (fuel + 1)]
  have hv : ¬ (s.err = some Err.ErrVictory) := by
    rw [he]; simpa using hne
  simp only [iterLoop, iterStep, hv, if_false]
  rw [he]

/-- C14: in every run of `Iterate`, when the move a pass issues, the forward
move chosen by `getValidMove` or the inverse of the move popped from the
history, returns an error other than victory, the pass stores that error,
and `Iterate` returns at the next check reporting it, in the world `Move`
has left: no further request is made and no solution is reported. -/
theorem Iterate_stops_on_error {σ : Type} (env : Env σ) (survey : Survey)
    (breadcrumbs : Stack) (w : World σ) (n : Nat) (s : IterState σ) (e : Err)
    (sv : Survey) (w1 : World σ)
    (hs : iterAt env n (iterInit survey breadcrumbs w) = some s)
    (he : s.err = none) (hne : e ≠ Err.ErrVictory) :
    (∀ m, getValidMove env.TranformByMove s.survey s.visited s.co = (m, none) →
      Move env m s.world = (some (sv, some e), w1) →
      ∃ s1, iterStep env s = Step.next s1 ∧ s1.err = some e ∧ s1.world = w1 ∧
        ∀ fuel, Iterate env (n + 2 + fuel) survey breadcrumbs w
          = some (Outcome.failed e, s1)) ∧
    (∀ m d, (getValidMove env.TranformByMove s.survey s.visited s.co).2 ≠ none →
      s.breadcrumbs.data = d ++ [Iface.str m] →
      Move env (ReverseMove m) s.world = (some (sv, some e), w1) →
      ∃ s1, iterStep env s = Step.next s1 ∧ s1.err = some e ∧ s1.world = w1 ∧
        ∀ fuel, Iterate env (n + 2 + fuel) survey breadcrumbs w
          = some (Outcome.failed e, s1)) := by
  constructor
  · intro m hg hm
    have hstep := iterStep_forward env s m sv (some e) w1 he hg hm
    refine ⟨_, hstep, rfl, rfl, fun fuel => ?_⟩
    exact Iterate_failed_at env survey breadcrumbs w (n + 1) _ e
      (iterAt_succ env hs hstep) rfl hne fuel
  · intro m d hg hd hm
    have hstep := iterStep_backward env s m d sv (some e) w1 he hg hd hm
    refine ⟨_, hstep, rfl, rfl, fun fuel => ?_⟩
    exact Iterate_failed_at env survey breadcrumbs w (n + 1) _ e
      (iterAt_succ env hs hstep) rfl hne fuel

/-- The scripted server with one response: the forward move "down" is
answered, the backtracking move "up" out of the dead end is refused, and
`Iterate` returns with the transport error after these two requests. With no
response at all, it returns after the refused forward move. -/
theorem Iterate_stops_on_error_witness :
    (Iterate scriptedEnv 3 deadEndSurvey (emptyStack 100)
        ⟨[HttpResult.body [0, 1, 1, 1, 0]], []⟩).map (fun r => (r.1, r.2.world.log))
      = some (Outcome.failed (Err.transport "connection refused"),
          ["http://127.0.0.1:8080/move/down", "http://127.0.0.1:8080/move/up"]) ∧
    (Iterate scriptedEnv 2 deadEndSurvey (emptyStack 100) ⟨[], []⟩).map
        (fun r => (r.1, r.2.world.log))
      = some (Outcome.failed (Err.transport "connection refused"),
          ["http://127.0.0.1:8080/move/down"]) := by
  constructor
  · obtain ⟨s1, -, -, hw, hI⟩ :=
      (Iterate_stops_on_error scriptedEnv deadEndSurvey (emptyStack 100)
        ⟨[HttpResult.body [0, 1, 1, 1, 0]], []⟩ 1
        ⟨⟨false, true, true, true⟩, ⟨0, 1⟩, none, [(⟨0, 1⟩, true), (⟨0, 0⟩, true)],
          ⟨[Iface.str "down"], 100⟩, ⟨[], ["http://127.0.0.1:8080/move/down"]⟩⟩
        (Err.transport "connection refused") Survey.zero
        ⟨[], ["http://127.0.0.1:8080/move/down", "http://127.0.0.1:8080/move/up"]⟩
        rfl rfl (by decide)).2 "down" [] (by decide) rfl rfl
    rw [hI 0]
    simp only [Option.map_some', hw]
  · obtain ⟨s1, -, -, hw, hI⟩ :=
      (Iterate_stops_on_error scriptedEnv deadEndSurvey (emptyStack 100) ⟨[], []⟩ 0
        (iterInit deadEndSurvey (emptyStack 100) ⟨[], []⟩)
        (Err.transport "connection refused") Survey.zero
        ⟨[], ["http://127.0.0.1:8080/move/down"]⟩
        rfl rfl (by decide)).1 "down" rfl rfl
    rw [hI 0]
    simp only [Option.map_some', hw]

/-- C20: in every run of `Iterate` started with an empty history, the
history holds only strings that are one of the four moves; the move pushed by
a pass is one of the four; the value a pass pops is such a string, so that
the type assertion holds, `ReverseMove` of it is not empty and is again one
of the four; no state carries the invalid-direction error; and a pass panics
only when `Move`, called with one of the four moves, gets no reply. -/
theorem Iterate_history_holds_moves {σ : Type} (env : Env σ) (survey : Survey)
    (breadcrumbs : Stack) (w : World σ) (n : Nat) (s : IterState σ)
    (hb : breadcrumbs.Len = 0)
    (hs : iterAt env n (iterInit survey breadcrumbs w) = some s) :
    (∃ ms : List String, s.breadcrumbs.data = ms.map Iface.str ∧ ∀ m ∈ ms, isMove m) ∧
    (∀ m, getValidMove env.TranformByMove s.survey s.visited s.co = (m, none) →
      isMove m) ∧
    (s.breadcrumbs.Len = 0 ∨
      ∃ m, s.breadcrumbs.Pop.1 = (Iface.str m, none) ∧ isMove m ∧
        ReverseMove m ≠ "" ∧ isMove (ReverseMove m)) ∧
    s.err ≠ some Err.invalidDirection ∧
    (∀ t, iterStep env s = Step.halt Outcome.panicked t →
      ∃ m, isMove m ∧ (Move env m s.world).1 = none) := by
  obtain ⟨⟨ms, hdata, hmoves⟩, -, -⟩ := iterAt_counts env survey breadcrumbs w hb n s hs
  refine ⟨⟨ms, hdata, hmoves⟩, fun m hg => (getValidMove_some hg).1, ?_,
    iterAt_err_valid env survey breadcrumbs w hb n s hs, ?_⟩
  · rcases Stack.pop_cases s.breadcrumbs with ⟨hl, -⟩ | ⟨d, v, hd, hpop⟩
    · exact Or.inl hl
    · right
      rw [hdata] at hd
      rcases List.eq_nil_or_concat ms with rfl | ⟨ms0, m0, rfl⟩
      · simp at hd
      · rw [List.concat_eq_append, List.map_append] at hd
        obtain ⟨-, h2⟩ := List.append_inj' hd (by simp)
        simp at h2
        have hm : isMove m0 := hmoves m0 (by simp)
        exact ⟨m0, by rw [hpop, ← h2], hm, ReverseMove_ne_empty hm, isMove_ReverseMove hm⟩
  · intro t ht
    obtain ⟨-, hp⟩ := iterStep_panicked env ht
    rcases hp with ⟨m, hg, hmv⟩ | ⟨d, m, -, hd, hmv⟩ | ⟨d, v, hd, hv, -⟩
    · exact ⟨m, (getValidMove_some hg).1, by rw [hmv]⟩
    · rw [hdata] at hd
      obtain ⟨ms0, rfl, rfl⟩ := map_str_eq_snoc hd
      have hm : isMove m := hmoves m (by simp)
      exact ⟨ReverseMove m, isMove_ReverseMove hm, by rw [hmv]⟩
    · exfalso
      rw [hdata] at hd
      rcases List.eq_nil_or_concat ms with rfl | ⟨ms0, m0, rfl⟩
      · simp at hd
      · rw [List.concat_eq_append, List.map_append] at hd
        obtain ⟨-, h2⟩ := List.append_inj' hd (by simp)
        simp at h2
        exact hv m0 h2.symm

/-- The scripted run of `deadEndScript` after its first pass: the history
holds the move "down", which the next pass pops and reverses to "up". -/
theorem Iterate_history_holds_moves_witness :
    ∃ m, (Stack.mk [Iface.str "down"] 100).Pop.1 = (Iface.str m, none) ∧ isMove m ∧
      ReverseMove m ≠ "" ∧ isMove (ReverseMove m) :=
  (Iterate_history_holds_moves scriptedEnv deadEndSurvey (emptyStack 100)
    ⟨deadEndScript, []⟩ 1
    ⟨⟨false, true, true, true⟩, ⟨0, 1⟩, none, [(⟨0, 1⟩, true), (⟨0, 0⟩, true)],
      ⟨[Iface.str "down"], 100⟩,
      ⟨[HttpResult.body [1, 0, 0, 1, 0], HttpResult.body [1, 1, 1, 1, 1]],
        ["http://127.0.0.1:8080/move/down"]⟩⟩
    (by decide) rfl).2.2.1.resolve_left (by decide)

/-! ## The history as a path through visited cells -/

theorem Visited.get_set (v : Visited) (c c1 : Coordinate) :
    (Visited.set v c true).get c1 = (decide (c1 = c) || v.get c1) := by
  unfold Visited.get Visited.set
  by_cases h : c1 = c
  · subst h
    simp [List.lookup]
  · have hb : (c1 == c) = false := by simpa using h
    simp [List.lookup, hb, h]

/-- Started with an empty history, and with `TranformByMove` undoing a move
under its inverse, the history of every state reached is a path through
visited cells. -/
theorem iterAt_path {σ : Type} (env : Env σ) (survey : Survey) (breadcrumbs : Stack)
    (w : World σ) (hb : breadcrumbs.Len = 0)
    (hinv : ∀ c m, isMove m →
      env.TranformByMove (env.TranformByMove c m) (ReverseMove m) = c) :
    ∀ n s, iterAt env n (iterInit survey breadcrumbs w) = some s → PathInv env s := by
  apply iterAt_induction env _ (fun _ s => PathInv env s)
  · refine ⟨[], ?_, by simp, by simp [iterInit, replay], ?_, by simp⟩
    · have : breadcrumbs.data = [] := List.length_eq_zero.mp hb
      simpa [iterInit] using this
    · intro p hp
      have : p = [] := List.prefix_nil.mp hp
      subst this
      simp [iterInit, replay, Visited.get_set]
  · intro n s s1 _ ih hstep
    obtain ⟨ms, hdata, hmoves, hco, hvis, hchain⟩ := ih
    obtain ⟨-, hrel⟩ := iterStep_next env hstep
    rcases hrel with ⟨m, hg, hbc, hc, hv, -⟩ | ⟨m, d, -, hd, hbc, hc, hv, -⟩
    · obtain ⟨hm, -, hfresh⟩ := getValidMove_some hg
      have hco1 : s1.co = replay env.TranformByMove (ms ++ [m]) := by
        rw [hc, hco]; simp [replay, List.foldl_append]
      refine ⟨ms ++ [m], ?_, ?_, hco1, ?_, ?_⟩
      · rw [hbc]; simp [Stack.Push, hdata]
      · intro x hx
        rcases List.mem_append.mp hx with hx | hx
        · exact hmoves x hx
        · simp at hx; rw [hx]; exact hm
      · intro p hp
        rw [hv, Visited.get_set]
        rcases List.prefix_concat_iff.mp hp with rfl | hp
        · rw [← hco1, hc]; simp
        · rw [hvis p hp]; simp
      · refine List.Chain'.append hchain (by simp) ?_
        intro x hx y hy
        simp at hy
        subst hy
        obtain ⟨p, rfl⟩ := List.getLast?_eq_some_iff.mp hx
        intro hxy
        have hback : env.TranformByMove s.co m = replay env.TranformByMove p := by
          rw [hco, hxy]
          simp only [replay, List.foldl_append, List.foldl_cons, List.foldl_nil]
          exact hinv _ x (hmoves x (by simp))
        rw [hback, hvis p (List.prefix_append p [x])] at hfresh
        exact Bool.noConfusion hfresh
    · rw [hdata] at hd
      obtain ⟨ms0, rfl, rfl⟩ := map_str_eq_snoc hd
      have hm : isMove m := hmoves m (by simp)
      refine ⟨ms0, by rw [hbc], ?_, ?_, ?_, hchain.left_of_append⟩
      · intro x hx
        exact hmoves x (List.mem_append.mpr (Or.inl hx))
      · rw [hc, hco]
        simp only [replay, List.foldl_append, List.foldl_cons, List.foldl_nil]
        exact hinv _ m hm
      · intro p hp
        rw [hv]
        exact hvis p (hp.trans (List.prefix_append ms0 [m]))

/-- The visited map after a pass is the one before, or the one before with
one more coordinate set. -/
theorem iterStep_visited {σ : Type} (env : Env σ) (s : IterState σ) :
    (iterStep env s).state.visited = s.visited ∨
    ∃ c, (iterStep env s).state.visited = s.visited.set c true := by
  unfold iterStep
  split
  · left; rfl
  split
  · left; rfl
  split
  · unfold executeMove
    split
    · left; rfl
    · right; exact ⟨_, rfl⟩
  · left
    rcases Stack.pop_cases s.breadcrumbs with ⟨-, hpop⟩ | ⟨d, v, -, hpop⟩
    · rw [hpop]
      rfl
    · rw [hpop]
      cases v with
      | nil => rfl
      | other t => rfl
      | str m =>
        simp only
        split <;> rfl

/-- Started with an empty history, and with `TranformByMove` undoing a move
under its inverse: every coordinate occupied so far reads true in the visited
map, and as long as the last move has not failed the coordinates that read
true are the coordinates occupied so far. -/
theorem iterAt_visited_occupied {σ : Type} (env : Env σ) (survey : Survey)
    (breadcrumbs : Stack) (w : World σ) (hb : breadcrumbs.Len = 0)
    (hinv : ∀ c m, isMove m →
      env.TranformByMove (env.TranformByMove c m) (ReverseMove m) = c) :
    ∀ n s, iterAt env n (iterInit survey breadcrumbs w) = some s →
      (∀ c, c ∈ occupied env n (iterInit survey breadcrumbs w) → s.visited.get c = true) ∧
      ((s.err = none ∨ s.err = some Err.ErrVictory) →
        ∀ c, s.visited.get c = true → c ∈ occupied env n (iterInit survey breadcrumbs w)) := by
  apply iterAt_induction
  · have h0 : ∀ c, (iterInit survey breadcrumbs w).visited.get c
        = (decide (c = ⟨0, 0⟩) || Visited.get [] c) := Visited.get_set [] ⟨0, 0⟩
    constructor
    · intro c hc
      rw [h0]
      simp [occupied, iterInit] at hc
      simp [hc]
    · intro _ c hc
      rw [h0] at hc
      simp [Visited.get] at hc
      simp [occupied, iterInit, hc]
  · intro n s s1 hs ih hstep
    have hs1 := iterAt_succ env hs hstep
    obtain ⟨he, hrel⟩ := iterStep_next env hstep
    obtain ⟨ih1, ih2⟩ := ih
    have ih2 := ih2 (Or.inl he)
    have hocc : occupied env (n + 1) (iterInit survey breadcrumbs w)
        = occupied env n (iterInit survey breadcrumbs w) ++
          (if s1.err = none ∨ s1.err = some Err.ErrVictory then [s1.co] else []) := by
      simp only [occupied, hs1]
    rw [hocc]
    rcases hrel with ⟨m, -, -, hc, hv, -⟩ | ⟨m, d, -, hd, -, -, hv, -⟩
    · constructor
      · intro c hcm
        rw [hv, Visited.get_set]
        rcases List.mem_append.mp hcm with h | h
        · rw [ih1 c h]; simp
        · split at h
          · simp only [List.mem_singleton] at h
            rw [h, hc]; simp
          · simp at h
      · intro harr c hget
        rw [hv, Visited.get_set] at hget
        simp only [Bool.or_eq_true, decide_eq_true_eq] at hget
        rw [if_pos harr]
        rcases hget with h | h
        · exact List.mem_append.mpr (Or.inr (by rw [h, hc]; simp))
        · exact List.mem_append.mpr (Or.inl (ih2 c h))
    · obtain ⟨ms1, -, -, hco1, hvis1, -⟩ :=
        iterAt_path env survey breadcrumbs w hb hinv (n + 1) s1 hs1
      have hin : s.visited.get s1.co = true := by
        rw [← hv, hco1]; exact hvis1 ms1 (List.prefix_refl ms1)
      constructor
      · intro c hcm
        rw [hv]
        rcases List.mem_append.mp hcm with h | h
        · exact ih1 c h
        · split at h
          · simp only [List.mem_singleton] at h
            rw [h]; exact hin
          · simp at h
      · intro _ c hget
        rw [hv] at hget
        exact List.mem_append.mpr (Or.inl (ih2 c hget))

theorem ReverseMove_ReverseMove {m : String} (hm : isMove m) :
    ReverseMove (ReverseMove m) = m := by
  rcases hm with rfl | rfl | rfl | rfl <;> decide

/-! ## Properties of the visited set and of the shape of the history -/

/-- C15, as stated, fails in two ways. Handed a history that is not empty,
"down" in a start cell walled on all sides, the first pass steps back to
(0,-1), a coordinate the agent then occupies and which is not in the visited
set. And when the forward move "down" is refused by the server, the agent
stays at the start, yet (0,1) is in the visited set. -/
theorem Iterate_visited_differs_from_occupied :
    ((iterAt scriptedEnv 1 (iterInit ⟨true, true, true, true⟩ ⟨[Iface.str "down"], 100⟩
        ⟨[HttpResult.body [1, 1, 1, 1, 0]], []⟩)).map
      (fun s => (s.co, s.visited.get s.co)) = some (⟨0, -1⟩, false) ∧
     (⟨0, -1⟩ : Coordinate) ∈ occupied scriptedEnv 1
      (iterInit ⟨true, true, true, true⟩ ⟨[Iface.str "down"], 100⟩
        ⟨[HttpResult.body [1, 1, 1, 1, 0]], []⟩)) ∧
    ((iterAt scriptedEnv 1 (iterInit deadEndSurvey (emptyStack 100) ⟨[], []⟩)).map
      (fun s => (s.err, s.visited.get ⟨0, 1⟩))
        = some (some (Err.transport "connection refused"), true) ∧
     occupied scriptedEnv 1 (iterInit deadEndSurvey (emptyStack 100) ⟨[], []⟩)
        = [⟨0, 0⟩]) := by
  decide

/-- C15, amended: in every run of `Iterate` started with an empty history,
after every pass every coordinate the agent has occupied is in the visited
set, and as long as no move has failed a coordinate is in the visited set
exactly when the agent has occupied it; a coordinate in the visited set is
still in it after the next pass. -/
theorem Iterate_visited_iff_occupied {σ : Type} (env : Env σ) (survey : Survey)
    (breadcrumbs : Stack) (w : World σ) (n : Nat) (s : IterState σ)
    (hb : breadcrumbs.Len = 0) (htr : env.TranformByMove = TranformByMove)
    (hs : iterAt env n (iterInit survey breadcrumbs w) = some s) :
    (∀ c, c ∈ occupied env n (iterInit survey breadcrumbs w) → s.visited.get c = true) ∧
    ((s.err = none ∨ s.err = some Err.ErrVictory) →
      ∀ c, s.visited.get c = true ↔ c ∈ occupied env n (iterInit survey breadcrumbs w)) ∧
    (∀ c, s.visited.get c = true → (iterStep env s).state.visited.get c = true) := by
  have hinv : ∀ c m, isMove m →
      env.TranformByMove (env.TranformByMove c m) (ReverseMove m) = c := by
    rw [htr]; exact TranformByMove_undo
  obtain ⟨h1, h2⟩ := iterAt_visited_occupied env survey breadcrumbs w hb hinv n s hs
  refine ⟨h1, fun harr c => ⟨h2 harr c, h1 c⟩, ?_⟩
  intro c hc
  rcases iterStep_visited env s with h | ⟨c1, h⟩
  · rw [h]; exact hc
  · rw [h, Visited.get_set, hc]; simp

/-- The run in `branchMaze` after four passes, three down and one back up:
the visited coordinates are the four occupied ones. -/
theorem Iterate_visited_iff_occupied_witness :
    (∀ c, Visited.get [(⟨0, 3⟩, true), (⟨0, 2⟩, true), (⟨0, 1⟩, true), (⟨0, 0⟩, true)] c
        = true ↔ c ∈ occupied branchEnv 4 branchInit) ∧
    occupied branchEnv 4 branchInit = [⟨0, 0⟩, ⟨0, 1⟩, ⟨0, 2⟩, ⟨0, 3⟩, ⟨0, 2⟩] :=
  ⟨(Iterate_visited_iff_occupied branchEnv (branchMaze ⟨0, 0⟩) (emptyStack 100)
      ⟨⟨0, 0⟩, []⟩ 4
      ⟨⟨false, true, false, true⟩, ⟨0, 2⟩, none,
        [(⟨0, 3⟩, true), (⟨0, 2⟩, true), (⟨0, 1⟩, true), (⟨0, 0⟩, true)],
        ⟨[Iface.str "down", Iface.str "down"], 100⟩,
        ⟨⟨0, 2⟩, ["http://127.0.0.1:8080/move/down", "http://127.0.0.1:8080/move/down",
          "http://127.0.0.1:8080/move/down", "http://127.0.0.1:8080/move/up"]⟩⟩
      (by decide) rfl rfl).2.1 (Or.inl rfl),
   by decide⟩

/-- C16: in every run of `Iterate` started with an empty history, provided
`TranformByMove` undoes a move when applied with its inverse, the history
never holds two adjacent moves that are inverses of one another; the
coordinates along the history, the cells the moves came from, all read true
in the visited map. -/
theorem Iterate_history_no_adjacent_inverses {σ : Type} (env : Env σ) (survey : Survey)
    (breadcrumbs : Stack) (w : World σ) (n : Nat) (s : IterState σ)
    (hb : breadcrumbs.Len = 0)
    (hinv : ∀ c m, isMove m →
      env.TranformByMove (env.TranformByMove c m) (ReverseMove m) = c)
    (hs : iterAt env n (iterInit survey breadcrumbs w) = some s) :
    ∃ ms : List String, s.breadcrumbs.data = ms.map Iface.str ∧
      (∀ p a b q, ms = p ++ a :: b :: q → b ≠ ReverseMove a ∧ a ≠ ReverseMove b) ∧
      (∀ p, p <+: ms → s.visited.get (replay env.TranformByMove p) = true) := by
  obtain ⟨ms, hdata, hmoves, -, hvis, hchain⟩ :=
    iterAt_path env survey breadcrumbs w hb hinv n s hs
  refine ⟨ms, hdata, ?_, hvis⟩
  intro p a b q hms
  subst hms
  have hab : b ≠ ReverseMove a := (List.chain'_cons.mp hchain.right_of_append).1
  refine ⟨hab, ?_⟩
  intro hba
  apply hab
  rw [hba, ReverseMove_ReverseMove (hmoves b (by simp))]

/-- The run in `branchMaze` after three passes: the history is down, down,
down. -/
theorem Iterate_history_no_adjacent_inverses_witness :
    ∃ ms : List String,
      [Iface.str "down", Iface.str "down", Iface.str "down"] = ms.map Iface.str ∧
      (∀ p a b q, ms = p ++ a :: b :: q → b ≠ ReverseMove a ∧ a ≠ ReverseMove b) ∧
      (∀ p, p <+: ms →
        Visited.get [(⟨0, 3⟩, true), (⟨0, 2⟩, true), (⟨0, 1⟩, true), (⟨0, 0⟩, true)]
          (replay branchEnv.TranformByMove p) = true) :=
  Iterate_history_no_adjacent_inverses branchEnv (branchMaze ⟨0, 0⟩) (emptyStack 100)
    ⟨⟨0, 0⟩, []⟩ 3
    ⟨⟨false, true, true, true⟩, ⟨0, 3⟩, none,
      [(⟨0, 3⟩, true), (⟨0, 2⟩, true), (⟨0, 1⟩, true), (⟨0, 0⟩, true)],
      ⟨[Iface.str "down", Iface.str "down", Iface.str "down"], 100⟩,
      ⟨⟨0, 3⟩, ["http://127.0.0.1:8080/move/down", "http://127.0.0.1:8080/move/down",
        "http://127.0.0.1:8080/move/down"]⟩⟩
    (by decide) TranformByMove_undo rfl

/-! ## A maze with a dead-end branch -/

/-- `getValidMove` returns the qualifying move of first priority. -/
theorem getValidMove_of_first (tr : Coordinate → String → Coordinate) (survey : Survey)
    (visited : Visited) (co : Coordinate) (m : String) (hm : isMove m)
    (hq : qualifies tr survey visited co m = true)
    (hfirst : ∀ m1, isMove m1 → qualifies tr survey visited co m1 = true →
      prio m ≤ prio m1) :
    getValidMove tr survey visited co = (m, none) := by
  have hd := qualifies_down tr survey visited co
  have hr := qualifies_right tr survey visited co
  have hu := qualifies_up tr survey visited co
  have hl := qualifies_left tr survey visited co
  have key : ∀ m1, isMove m1 → prio m1 < prio m →
      qualifies tr survey visited co m1 = false := by
    intro m1 hm1 hlt
    cases hq1 : qualifies tr survey visited co m1 with
    | false => rfl
    | true =>
      have := hfirst m1 hm1 hq1
      omega
  unfold getValidMove
  rw [← hd, ← hr, ← hu, ← hl]
  rcases hm with rfl | rfl | rfl | rfl
  · have h1 := key "down" (by decide) (by decide)
    have h2 := key "right" (by decide) (by decide)
    simp [h1, h2, hq]
  · simp [hq]
  · have h1 := key "down" (by decide) (by decide)
    have h2 := key "right" (by decide) (by decide)
    have h3 := key "up" (by decide) (by decide)
    simp [h1, h2, h3, hq]
  · have h1 := key "down" (by decide) (by decide)
    simp [h1, hq]

/-- `getValidMove` finds no move when no direction qualifies. -/
theorem getValidMove_of_none (tr : Coordinate → String → Coordinate) (survey : Survey)
    (visited : Visited) (co : Coordinate)
    (h : ∀ m1, isMove m1 → qualifies tr survey visited co m1 = false) :
    (getValidMove tr survey visited co).2 ≠ none := by
  have hd := qualifies_down tr survey visited co
  have hr := qualifies_right tr survey visited co
  have hu := qualifies_up tr survey visited co
  have hl := qualifies_left tr survey visited co
  unfold getValidMove
  rw [← hd, ← hr, ← hu, ← hl]
  simp [h "down" (by decide), h "right" (by decide), h "up" (by decide),
    h "left" (by decide)]

/-- `Move` through an open edge of a maze that the authority serves. -/
theorem Move_serves {σ : Type} (env : Env σ) (cells : Coordinate → Survey)
    (goal : Coordinate) (pos : σ → Coordinate) (hserve : Serves env cells goal pos)
    (w : World σ) (m : String) (hm : isMove m)
    (hopen : wallFlag (cells (pos w.auth)) m = false) :
    Move env m w =
      (some (cells (env.TranformByMove (pos w.auth) m),
        if env.TranformByMove (pos w.auth) m = goal then some Err.ErrVictory else none),
       ⟨(env.httpGet w.auth (moveUrl env m)).2, w.log ++ [moveUrl env m]⟩) ∧
    pos (env.httpGet w.auth (moveUrl env m)).2 = env.TranformByMove (pos w.auth) m := by
  obtain ⟨hp, contents, msg, hbody, hrep⟩ := hserve w.auth m hm hopen
  refine ⟨?_, hp⟩
  rw [Move_valid env hm w, hbody]
  simp only [hrep, Option.map_some', replyResult, decide_eq_true_eq]

/-- A forward pass in a served maze: from the cell `c`, when `m` is the open
edge of first priority among those leading to a coordinate not yet visited,
the pass pushes `m` and requests it, and the next state is in the cell behind
`m`, or carries the victory signal when that cell is the exit. -/
theorem AtCell.forward {σ : Type} (env : Env σ) (cells : Coordinate → Survey)
    (goal : Coordinate) (pos : σ → Coordinate) (hserve : Serves env cells goal pos)
    (s : IterState σ) (c : Coordinate) (hist : List String) (vis : List Coordinate)
    (log : List String) (h : AtCell cells pos s c hist vis log)
    (m : String) (hm : isMove m) (hopen : wallFlag (cells c) m = false)
    (hfresh : env.TranformByMove c m ∉ vis)
    (hfirst : ∀ m1, isMove m1 → wallFlag (cells c) m1 = false →
      env.TranformByMove c m1 ∉ vis → prio m ≤ prio m1) :
    ∃ s1, iterStep env s = Step.next s1 ∧
      s1.breadcrumbs.data = (hist ++ [m]).map Iface.str ∧
      s1.world.log = log ++ [moveUrl env m] ∧
      (env.TranformByMove c m ≠ goal →
        AtCell cells pos s1 (env.TranformByMove c m) (hist ++ [m])
          (env.TranformByMove c m :: vis) (log ++ [moveUrl env m])) ∧
      (env.TranformByMove c m = goal → s1.err = some Err.ErrVictory) := by
  obtain ⟨hsv, hco, herr, hpos, hdata, hvis, hlog⟩ := h
  have hq : qualifies env.TranformByMove s.survey s.visited s.co m = true := by
    simp [qualifies, hsv, hco, hopen, hvis, hfresh]
  have hg := getValidMove_of_first env.TranformByMove s.survey s.visited s.co m hm hq
    (by
      intro m1 hm1 hq1
      simp only [qualifies, hsv, hco, hvis, Bool.and_eq_true, Bool.not_eq_true',
        decide_eq_false_iff_not] at hq1
      exact hfirst m1 hm1 hq1.1 hq1.2)
  obtain ⟨hmv, hp1⟩ := Move_serves env cells goal pos hserve s.world m hm
    (by rw [hpos]; exact hopen)
  rw [hpos] at hmv hp1
  have hstep := iterStep_forward env s m _ _ _ herr hg hmv
  rw [hco] at hstep
  refine ⟨_, hstep, ?_, ?_, ?_, ?_⟩
  · simp [Stack.Push, hdata]
  · simp [hlog]
  · intro hng
    refine ⟨rfl, rfl, ?_, hp1, ?_, ?_, ?_⟩
    · simp [hng]
    · simp [Stack.Push, hdata]
    · intro x
      simp only [Visited.get_set, hvis, List.mem_cons, Bool.decide_or]
    · simp [hlog]
  · intro hgl
    simp [hgl]

/-- A backtracking pass in a served maze: in the cell `c`, when every open
edge leads to a visited coordinate and the history ends with `m`, the pass
pops `m` and requests its inverse, and the next state is in the cell behind
the inverse of `m`. -/
theorem AtCell.backward {σ : Type} (env : Env σ) (cells : Coordinate → Survey)
    (goal : Coordinate) (pos : σ → Coordinate) (hserve : Serves env cells goal pos)
    (s : IterState σ) (c : Coordinate) (hist : List String) (m : String)
    (vis : List Coordinate) (log : List String)
    (h : AtCell cells pos s c (hist ++ [m]) vis log) (hm : isMove m)
    (hnone : ∀ m1, isMove m1 → wallFlag (cells c) m1 = false →
      env.TranformByMove c m1 ∈ vis)
    (hback : wallFlag (cells c) (ReverseMove m) = false)
    (hng : env.TranformByMove c (ReverseMove m) ≠ goal) :
    ∃ s1, iterStep env s = Step.next s1 ∧
      AtCell cells pos s1 (env.TranformByMove c (ReverseMove m)) hist vis
        (log ++ [moveUrl env (ReverseMove m)]) := by
  obtain ⟨hsv, hco, herr, hpos, hdata, hvis, hlog⟩ := h
  have hg := getValidMove_of_none env.TranformByMove s.survey s.visited s.co
    (by
      intro m1 hm1
      simp only [qualifies, hsv, hco, hvis]
      cases hw : wallFlag (cells c) m1 with
      | true => simp
      | false => simp [hnone m1 hm1 hw])
  obtain ⟨hmv, hp1⟩ := Move_serves env cells goal pos hserve s.world (ReverseMove m)
    (isMove_ReverseMove hm) (by rw [hpos]; exact hback)
  rw [hpos] at hmv hp1
  have hd : s.breadcrumbs.data = hist.map Iface.str ++ [Iface.str m] := by
    rw [hdata]; simp
  have hstep := iterStep_backward env s m _ _ _ _ herr hg hd hmv
  rw [hco] at hstep
  refine ⟨_, hstep, rfl, rfl, ?_, hp1, rfl, hvis, ?_⟩
  · simp [hng]
  · simp [hlog]

/-- The eight passes of `Iterate` in a served maze with a dead-end branch of
depth three and an exit at depth two: three forward, three back, two
forward, the last one ending with the victory signal. -/
theorem branch_run {σ : Type} (env : Env σ) (cells : Coordinate → Survey)
    (goal : Coordinate) (pos : σ → Coordinate) (d1 d2 d3 e1 e2 : String) (w : World σ)
    (breadcrumbs : Stack) (hb : breadcrumbs.Len = 0)
    (hinv : ∀ c m, isMove m →
      env.TranformByMove (env.TranformByMove c m) (ReverseMove m) = c)
    (hserve : Serves env cells goal pos) (hpos : pos w.auth = ⟨0, 0⟩)
    (hshape : BranchShape env.TranformByMove cells goal d1 d2 d3 e1 e2) :
    ∃ s1 s2 s3 s4 s5 s6 s7 s8 : IterState σ,
      (iterStep env (iterInit (cells ⟨0, 0⟩) breadcrumbs w) = Step.next s1 ∧
       iterStep env s1 = Step.next s2 ∧ iterStep env s2 = Step.next s3 ∧
       iterStep env s3 = Step.next s4 ∧ iterStep env s4 = Step.next s5 ∧
       iterStep env s5 = Step.next s6 ∧ iterStep env s6 = Step.next s7 ∧
       iterStep env s7 = Step.next s8) ∧
      (s1.breadcrumbs.Len = 1 ∧ s2.breadcrumbs.Len = 2 ∧ s3.breadcrumbs.Len = 3 ∧
       s4.breadcrumbs.Len = 2 ∧ s5.breadcrumbs.Len = 1 ∧ s6.breadcrumbs.Len = 0 ∧
       s7.breadcrumbs.Len = 1 ∧ s8.breadcrumbs.Len = 2) ∧
      s8.err = some Err.ErrVictory ∧
      s8.breadcrumbs.data = [Iface.str e1, Iface.str e2] ∧
      s8.world.log = w.log ++ [moveUrl env d1, moveUrl env d2, moveUrl env d3,
        moveUrl env (ReverseMove d3), moveUrl env (ReverseMove d2),
        moveUrl env (ReverseMove d1), moveUrl env e1, moveUrl env e2] := by
  obtain ⟨hd1, hd2, hd3, he1, he2⟩ := hshape.moves
  have hnd := hshape.distinct
  have hgoal := hshape.goal_at
  have sf := hshape.start_first
  have ss := hshape.start_second
  have so := hshape.start_order
  have sr := hshape.start_rest
  have a1 := hshape.dead1_on
  have b1 := hshape.dead1_back
  have r1 := hshape.dead1_rest
  have a2 := hshape.dead2_on
  have b2 := hshape.dead2_back
  have r2 := hshape.dead2_rest
  have b3 := hshape.dead3_back
  have r3 := hshape.dead3_rest
  have ao := hshape.exit_on
  have ro := hshape.exit_rest
  simp only [replay, List.foldl_cons, List.foldl_nil] at hnd hgoal sf ss sr a1 b1 r1
  simp only [replay, List.foldl_cons, List.foldl_nil] at a2 b2 r2 b3 r3 ao ro
  have i1 := hinv ⟨0, 0⟩ d1 hd1
  have i2 := hinv (env.TranformByMove ⟨0, 0⟩ d1) d2 hd2
  have i3 := hinv (env.TranformByMove (env.TranformByMove ⟨0, 0⟩ d1) d2) d3 hd3
  have j1 := hinv ⟨0, 0⟩ e1 he1
  generalize hc0 : (⟨0, 0⟩ : Coordinate) = c0 at *
  generalize hc1 : env.TranformByMove c0 d1 = c1 at *
  generalize hc2 : env.TranformByMove c1 d2 = c2 at *
  generalize hc3 : env.TranformByMove c2 d3 = c3 at *
  generalize hf1 : env.TranformByMove c0 e1 = f1 at *
  generalize hf2 : env.TranformByMove f1 e2 = f2 at *
  simp only [List.nodup_cons, List.mem_cons, List.mem_singleton, List.not_mem_nil,
    not_or, List.nodup_nil, and_true, not_false_eq_true] at hnd
  obtain ⟨⟨n01, n02, n03, n04, n05⟩, ⟨n12, n13, n14, n15⟩, ⟨n23, n24, n25⟩, ⟨n34, n35⟩,
    n45⟩ := hnd
  subst hgoal
  -- the start
  have h0 : AtCell cells pos (iterInit (cells c0) breadcrumbs w) c0 [] [c0] w.log := by
    refine ⟨rfl, hc0, rfl, hpos, ?_, ?_, rfl⟩
    · have : breadcrumbs.data = [] := List.length_eq_zero.mp hb
      simpa [iterInit] using this
    · intro x
      have hv : (iterInit (cells c0) breadcrumbs w).visited = Visited.set [] c0 true := by
        rw [← hc0]; rfl
      rw [hv, Visited.get_set]
      simp [Visited.get]
  -- pass 1: forward by d1
  obtain ⟨s1, st1, -, -, at1, -⟩ := AtCell.forward env cells goal pos hserve _ c0 [] [c0]
    w.log h0 d1 hd1 sf (by rw [hc1]; simp [Ne.symm n01])
    (by
      intro m1 hm1 ho _
      rcases sr m1 hm1 ho with rfl | h
      · exact Nat.le_refl _
      · omega)
  rw [hc1] at at1
  have at1 := at1 n15
  -- pass 2: forward by d2
  obtain ⟨s2, st2, -, -, at2, -⟩ := AtCell.forward env cells goal pos hserve s1 c1 _ _ _ at1
    d2 hd2 a1 (by rw [hc2]; simp [Ne.symm n12, Ne.symm n02])
    (by
      intro m1 hm1 ho hfr
      rcases r1 m1 hm1 ho with rfl | rfl
      · rw [i1] at hfr; simp at hfr
      · exact Nat.le_refl _)
  rw [hc2] at at2
  have at2 := at2 n25
  -- pass 3: forward by d3
  obtain ⟨s3, st3, -, -, at3, -⟩ := AtCell.forward env cells goal pos hserve s2 c2 _ _ _ at2
    d3 hd3 a2 (by rw [hc3]; simp [Ne.symm n23, Ne.symm n13, Ne.symm n03])
    (by
      intro m1 hm1 ho hfr
      rcases r2 m1 hm1 ho with rfl | rfl
      · rw [i2] at hfr; simp at hfr
      · exact Nat.le_refl _)
  rw [hc3] at at3
  have at3 := at3 n35
  -- pass 4: back out of the dead end
  obtain ⟨s4, st4, at4⟩ := AtCell.backward env cells goal pos hserve s3 c3 _ d3 _ _ at3 hd3
    (by
      intro m1 hm1 ho
      rw [r3 m1 hm1 ho, i3]; simp)
    b3 (by rw [i3]; exact n25)
  rw [i3] at at4
  -- pass 5
  obtain ⟨s5, st5, at5⟩ := AtCell.backward env cells goal pos hserve s4 c2 _ d2 _ _ at4 hd2
    (by
      intro m1 hm1 ho
      rcases r2 m1 hm1 ho with rfl | rfl
      · rw [i2]; simp
      · rw [hc3]; simp)
    b2 (by rw [i2]; exact n15)
  rw [i2] at at5
  -- pass 6
  obtain ⟨s6, st6, at6⟩ := AtCell.backward env cells goal pos hserve s5 c1 _ d1 _ _ at5 hd1
    (by
      intro m1 hm1 ho
      rcases r1 m1 hm1 ho with rfl | rfl
      · rw [i1]; simp
      · rw [hc2]; simp)
    b1 (by rw [i1]; exact n05)
  rw [i1] at at6
  -- pass 7: forward by e1
  obtain ⟨s7, st7, -, -, at7, -⟩ := AtCell.forward env cells goal pos hserve s6 c0 _ _ _ at6
    e1 he1 ss
    (by rw [hf1]; simp [Ne.symm n34, Ne.symm n24, Ne.symm n14, Ne.symm n04])
    (by
      intro m1 hm1 ho hfr
      rcases sr m1 hm1 ho with rfl | h
      · rw [hc1] at hfr; simp at hfr
      · exact h)
  rw [hf1] at at7
  have at7 := at7 n45
  -- pass 8: forward by e2, into the exit
  obtain ⟨s8, st8, dat8, log8, -, vic8⟩ := AtCell.forward env cells goal pos hserve s7 f1 _ _ _
    at7 e2 he2 ao
    (by rw [hf2]; simp [Ne.symm n45, Ne.symm n35, Ne.symm n25, Ne.symm n15, Ne.symm n05])
    (by
      intro m1 hm1 ho hfr
      rcases ro m1 hm1 ho with rfl | h
      · rw [j1] at hfr; simp at hfr
      · exact h)
  refine ⟨s1, s2, s3, s4, s5, s6, s7, s8, ⟨st1, st2, st3, st4,
    st5, st6, st7, st8⟩, ⟨?_, ?_, ?_, ?_, ?_, ?_, ?_, ?_⟩, vic8 hf2, ?_, ?_⟩
  · simp [Stack.Len, at1.2.2.2.2.1]
  · simp [Stack.Len, at2.2.2.2.2.1]
  · simp [Stack.Len, at3.2.2.2.2.1]
  · simp [Stack.Len, at4.2.2.2.2.1]
  · simp [Stack.Len, at5.2.2.2.2.1]
  · simp [Stack.Len, at6.2.2.2.2.1]
  · simp [Stack.Len, at7.2.2.2.2.1]
  · simp [Stack.Len, dat8]
  · simpa using dat8
  · simpa using log8

theorem flagsUnmarshal_encodeReply (survey : Survey) (victory : Bool) :
    flagsUnmarshal (encodeReply survey victory) = ⟨some ⟨survey, victory, ""⟩, false⟩ := by
  rcases survey with ⟨t, r, b, l⟩
  cases t <;> cases r <;> cases b <;> cases l <;> cases victory <;> rfl

/-- The maze server serves its maze, with its own state as the agent's
cell. -/
theorem mazeGet_serves (cells : Coordinate → Survey) (goal : Coordinate)
    (grow : Nat → Nat) (maxAlloc : Nat) :
    Serves ⟨"8080", mazeGet cells goal, flagsUnmarshal, TranformByMove, grow, maxAlloc⟩
      cells goal id := by
  intro a m hm hopen
  simp only [id] at hopen
  have hw : ¬ (wallFlag (cells a) m = true) := by rw [hopen]; simp
  rcases hm with rfl | rfl | rfl | rfl
  · have hu : moveUrl (⟨"8080", mazeGet cells goal, flagsUnmarshal, TranformByMove, grow,
        maxAlloc⟩ : Env Coordinate) "up" = "http://127.0.0.1:8080/move/up" := rfl
    simp only [hu, id]
    have hg : mazeGet cells goal a "http://127.0.0.1:8080/move/up"
        = (HttpResult.body (encodeReply (cells (TranformByMove a "up"))
            (decide (TranformByMove a "up" = goal))), TranformByMove a "up") := by
      simp [mazeGet, hw]
    rw [hg]
    exact ⟨rfl, _, "", rfl, by simp [ToReply, flagsUnmarshal_encodeReply]⟩
  · have hu : moveUrl (⟨"8080", mazeGet cells goal, flagsUnmarshal, TranformByMove, grow,
        maxAlloc⟩ : Env Coordinate) "down" = "http://127.0.0.1:8080/move/down" := rfl
    simp only [hu, id]
    have hg : mazeGet cells goal a "http://127.0.0.1:8080/move/down"
        = (HttpResult.body (encodeReply (cells (TranformByMove a "down"))
            (decide (TranformByMove a "down" = goal))), TranformByMove a "down") := by
      simp [mazeGet, hw]
    rw [hg]
    exact ⟨rfl, _, "", rfl, by simp [ToReply, flagsUnmarshal_encodeReply]⟩
  · have hu : moveUrl (⟨"8080", mazeGet cells goal, flagsUnmarshal, TranformByMove, grow,
        maxAlloc⟩ : Env Coordinate) "left" = "http://127.0.0.1:8080/move/left" := rfl
    simp only [hu, id]
    have hg : mazeGet cells goal a "http://127.0.0.1:8080/move/left"
        = (HttpResult.body (encodeReply (cells (TranformByMove a "left"))
            (decide (TranformByMove a "left" = goal))), TranformByMove a "left") := by
      simp [mazeGet, hw]
    rw [hg]
    exact ⟨rfl, _, "", rfl, by simp [ToReply, flagsUnmarshal_encodeReply]⟩
  · have hu : moveUrl (⟨"8080", mazeGet cells goal, flagsUnmarshal, TranformByMove, grow,
        maxAlloc⟩ : Env Coordinate) "right" = "http://127.0.0.1:8080/move/right" := rfl
    simp only [hu, id]
    have hg : mazeGet cells goal a "http://127.0.0.1:8080/move/right"
        = (HttpResult.body (encodeReply (cells (TranformByMove a "right"))
            (decide (TranformByMove a "right" = goal))), TranformByMove a "right") := by
      simp [mazeGet, hw]
    rw [hg]
    exact ⟨rfl, _, "", rfl, by simp [ToReply, flagsUnmarshal_encodeReply]⟩

theorem branchMaze_shape :
    BranchShape TranformByMove branchMaze ⟨2, 0⟩ "down" "down" "down" "right" "right" where
  moves := by decide
  distinct := by decide
  goal_at := by decide
  start_first := by decide
  start_second := by decide
  start_order := by decide
  start_rest := by intro m hm; rcases hm with rfl | rfl | rfl | rfl <;> decide
  dead1_on := by decide
  dead1_back := by decide
  dead1_rest := by intro m hm; rcases hm with rfl | rfl | rfl | rfl <;> decide
  dead2_on := by decide
  dead2_back := by decide
  dead2_rest := by intro m hm; rcases hm with rfl | rfl | rfl | rfl <;> decide
  dead3_back := by decide
  dead3_rest := by intro m hm; rcases hm with rfl | rfl | rfl | rfl <;> decide
  exit_on := by decide
  exit_rest := by intro m hm; rcases hm with rfl | rfl | rfl | rfl <;> decide

theorem turnMaze_shape :
    BranchShape TranformByMove turnMaze ⟨-1, -1⟩ "right" "down" "left" "up" "left" where
  moves := by decide
  distinct := by decide
  goal_at := by decide
  start_first := by decide
  start_second := by decide
  start_order := by decide
  start_rest := by intro m hm; rcases hm with rfl | rfl | rfl | rfl <;> decide
  dead1_on := by decide
  dead1_back := by decide
  dead1_rest := by intro m hm; rcases hm with rfl | rfl | rfl | rfl <;> decide
  dead2_on := by decide
  dead2_back := by decide
  dead2_rest := by intro m hm; rcases hm with rfl | rfl | rfl | rfl <;> decide
  dead3_back := by decide
  dead3_rest := by intro m hm; rcases hm with rfl | rfl | rfl | rfl <;> decide
  exit_on := by decide
  exit_rest := by intro m hm; rcases hm with rfl | rfl | rfl | rfl <;> decide

/-- C17: for every maze in which, from the start, the open edge of first
priority leads into a corridor of three cells that ends blind and the open
edge of next priority leads in two steps to the exit, and every authority
that serves this maze, `Iterate` started with an empty history issues three
forward moves, then the three inverse moves in reverse order, then two
forward moves, and returns on victory reporting two steps, with a history of
length two. -/
theorem Iterate_dead_end_then_exit {σ : Type} (env : Env σ) (cells : Coordinate → Survey)
    (goal : Coordinate) (pos : σ → Coordinate) (d1 d2 d3 e1 e2 : String) (w : World σ)
    (breadcrumbs : Stack) (hb : breadcrumbs.Len = 0)
    (htr : env.TranformByMove = TranformByMove)
    (hserve : Serves env cells goal pos) (hpos : pos w.auth = ⟨0, 0⟩)
    (hshape : BranchShape TranformByMove cells goal d1 d2 d3 e1 e2) :
    ∃ t, (∀ fuel, Iterate env (9 + fuel) (cells ⟨0, 0⟩) breadcrumbs w
        = some (Outcome.solved 2, t)) ∧
      t.err = some Err.ErrVictory ∧
      t.breadcrumbs.data = [Iface.str e1, Iface.str e2] ∧
      t.world.log = w.log ++ [moveUrl env d1, moveUrl env d2, moveUrl env d3,
        moveUrl env (ReverseMove d3), moveUrl env (ReverseMove d2),
        moveUrl env (ReverseMove d1), moveUrl env e1, moveUrl env e2] ∧
      [0, 1, 2, 3, 4, 5, 6, 7, 8].map
          (fun k => (iterAt env k (iterInit (cells ⟨0, 0⟩) breadcrumbs w)).map
            (fun s => s.breadcrumbs.Len))
        = [some 0, some 1, some 2, some 3, some 2, some 1, some 0, some 1, some 2] := by
  have hinv : ∀ c m, isMove m →
      env.TranformByMove (env.TranformByMove c m) (ReverseMove m) = c := by
    rw [htr]; exact TranformByMove_undo
  have hshape1 : BranchShape env.TranformByMove cells goal d1 d2 d3 e1 e2 := by
    rw [htr]; exact hshape
  obtain ⟨s1, s2, s3, s4, s5, s6, s7, s8, ⟨st1, st2, st3, st4, st5, st6, st7, st8⟩,
    ⟨l1, l2, l3, l4, l5, l6, l7, l8⟩, hv, hd, hl⟩ :=
    branch_run env cells goal pos d1 d2 d3 e1 e2 w breadcrumbs hb hinv hserve hpos hshape1
  have q0 : iterAt env 0 (iterInit (cells ⟨0, 0⟩) breadcrumbs w)
      = some (iterInit (cells ⟨0, 0⟩) breadcrumbs w) := rfl
  have q1 := iterAt_succ env q0 st1
  have q2 := iterAt_succ env q1 st2
  have q3 := iterAt_succ env q2 st3
  have q4 := iterAt_succ env q3 st4
  have q5 := iterAt_succ env q4 st5
  have q6 := iterAt_succ env q5 st6
  have q7 := iterAt_succ env q6 st7
  have q8 := iterAt_succ env q7 st8
  refine ⟨s8, ?_, hv, hd, hl, ?_⟩
  · intro fuel
    have e : 9 + fuel = 8 + (fuel + 1) := by omega
    rw [Iterate, e, iterLoop_of_iterAt env 8 _ s8 q8 (fuel + 1)]
    simp [iterLoop, iterStep, hv, l8]
  · have l0 : (iterInit (cells ⟨0, 0⟩) breadcrumbs w).breadcrumbs.Len = 0 := hb
    simp only [List.map_cons, List.map_nil, q0, q1, q2, q3, q4, q5, q6, q7, q8,
      Option.map_some', l0, l1, l2, l3, l4, l5, l6, l7, l8]

/-- The run in `branchMaze`, whose corridors are straight, and the run in
`turnMaze`, whose corridors turn: each is a maze of the shape, served by the
maze server; the first run evaluates to the eight requests down, down, down,
up, up, up, right, right. -/
theorem Iterate_dead_end_then_exit_witness :
    (∃ t, (∀ fuel, Iterate branchEnv (9 + fuel) (branchMaze ⟨0, 0⟩) (emptyStack 100)
          ⟨⟨0, 0⟩, []⟩ = some (Outcome.solved 2, t)) ∧
        t.err = some Err.ErrVictory ∧
        t.breadcrumbs.data = [Iface.str "right", Iface.str "right"] ∧
        t.world.log = [] ++ [moveUrl branchEnv "down", moveUrl branchEnv "down",
          moveUrl branchEnv "down", moveUrl branchEnv (ReverseMove "down"),
          moveUrl branchEnv (ReverseMove "down"), moveUrl branchEnv (ReverseMove "down"),
          moveUrl branchEnv "right", moveUrl branchEnv "right"] ∧
        [0, 1, 2, 3, 4, 5, 6, 7, 8].map
            (fun k => (iterAt branchEnv k
              (iterInit (branchMaze ⟨0, 0⟩) (emptyStack 100) ⟨⟨0, 0⟩, []⟩)).map
              (fun s => s.breadcrumbs.Len))
          = [some 0, some 1, some 2, some 3, some 2, some 1, some 0, some 1, some 2]) ∧
    (∃ t, (∀ fuel, Iterate turnEnv (9 + fuel) (turnMaze ⟨0, 0⟩) (emptyStack 100)
          ⟨⟨0, 0⟩, []⟩ = some (Outcome.solved 2, t)) ∧
        t.err = some Err.ErrVictory ∧
        t.breadcrumbs.data = [Iface.str "up", Iface.str "left"] ∧
        t.world.log = [] ++ [moveUrl turnEnv "right", moveUrl turnEnv "down",
          moveUrl turnEnv "left", moveUrl turnEnv (ReverseMove "left"),
          moveUrl turnEnv (ReverseMove "down"), moveUrl turnEnv (ReverseMove "right"),
          moveUrl turnEnv "up", moveUrl turnEnv "left"] ∧
        [0, 1, 2, 3, 4, 5, 6, 7, 8].map
            (fun k => (iterAt turnEnv k
              (iterInit (turnMaze ⟨0, 0⟩) (emptyStack 100) ⟨⟨0, 0⟩, []⟩)).map
              (fun s => s.breadcrumbs.Len))
          = [some 0, some 1, some 2, some 3, some 2, some 1, some 0, some 1, some 2]) ∧
    (Iterate branchEnv 9 (branchMaze ⟨0, 0⟩) (emptyStack 100) ⟨⟨0, 0⟩, []⟩).map
        (fun r => (r.1, r.2.breadcrumbs.data, r.2.world.log))
      = some (Outcome.solved 2, [Iface.str "right", Iface.str "right"],
          ["http://127.0.0.1:8080/move/down", "http://127.0.0.1:8080/move/down",
           "http://127.0.0.1:8080/move/down", "http://127.0.0.1:8080/move/up",
           "http://127.0.0.1:8080/move/up", "http://127.0.0.1:8080/move/up",
           "http://127.0.0.1:8080/move/right", "http://127.0.0.1:8080/move/right"]) :=
  ⟨Iterate_dead_end_then_exit branchEnv branchMaze ⟨2, 0⟩ id "down" "down" "down" "right"
      "right" ⟨⟨0, 0⟩, []⟩ (emptyStack 100) (by decide) rfl
      (mazeGet_serves branchMaze ⟨2, 0⟩ _ _) rfl branchMaze_shape,
   Iterate_dead_end_then_exit turnEnv turnMaze ⟨-1, -1⟩ id "right" "down" "left" "up"
      "left" ⟨⟨0, 0⟩, []⟩ (emptyStack 100) (by decide) rfl
      (mazeGet_serves turnMaze ⟨-1, -1⟩ _ _) rfl turnMaze_shape,
   by decide⟩

/-! ## Termination in a confined maze -/

theorem backtracks_succ {σ : Type} (env : Env σ) (s0 : IterState σ) {n : Nat}
    {s s1 : IterState σ} (hs : iterAt env n s0 = some s)
    (hstep : iterStep env s = Step.next s1) :
    backtracks env (n + 1) s0
      = backtracks env n s0 + (if s1.breadcrumbs.Len < s.breadcrumbs.Len then 1 else 0) := by
  simp [backtracks, hs, hstep, Step.state]

theorem Visited.get_of_key (v : Visited) (hv : ∀ e ∈ v, e.2 = true) (c : Coordinate)
    (hc : c ∈ v.map Prod.fst) : Visited.get v c = true := by
  induction v with
  | nil => simp at hc
  | cons e v ih =>
    obtain ⟨k, b⟩ := e
    have hb : b = true := hv (k, b) (by simp)
    subst hb
    have hset : Visited.get ((k, true) :: v) c = (decide (c = k) || Visited.get v c) :=
      Visited.get_set v k c
    rw [hset]
    by_cases hck : c = k
    · simp [hck]
    · have hc2 : c ∈ v.map Prod.fst := by
        simp only [List.map_cons, List.mem_cons] at hc
        rcases hc with h | h
        · exact absurd h hck
        · exact h
      rw [ih (fun e he => hv e (List.mem_cons_of_mem _ he)) hc2]
      simp

/-- Started with an empty history in a maze whose surveys keep the agent
inside the set `S`: the keys of the visited map are distinct coordinates of
`S`, all set to true, and there is one for the start and one for every
forward pass. -/
theorem iterAt_visited_count {σ : Type} (env : Env σ) (survey : Survey)
    (breadcrumbs : Stack) (w : World σ) (S : Finset Coordinate)
    (hb : breadcrumbs.Len = 0) (h0 : (⟨0, 0⟩ : Coordinate) ∈ S)
    (hconf : ∀ n s, iterAt env n (iterInit survey breadcrumbs w) = some s → s.err = none →
      ∀ m, isMove m → wallFlag s.survey m = false → env.TranformByMove s.co m ∈ S) :
    ∀ n s, iterAt env n (iterInit survey breadcrumbs w) = some s →
      (s.visited.map Prod.fst).Nodup ∧ (∀ c ∈ s.visited.map Prod.fst, c ∈ S) ∧
      (∀ e ∈ s.visited, e.2 = true) ∧
      s.visited.length
        = 1 + s.breadcrumbs.Len + backtracks env n (iterInit survey breadcrumbs w) := by
  apply iterAt_induction
  · refine ⟨by simp [iterInit, Visited.set], ?_, by simp [iterInit, Visited.set], ?_⟩
    · intro c hc
      simp [iterInit, Visited.set] at hc
      rw [hc]; exact h0
    · simp [iterInit, Visited.set, backtracks, hb]
  · intro n s s1 hs ih hstep
    obtain ⟨hnd, hsub, htrue, hlen⟩ := ih
    rw [backtracks_succ env _ hs hstep]
    obtain ⟨he, hrel⟩ := iterStep_next env hstep
    rcases hrel with ⟨m, hg, hbc, -, hv, -⟩ | ⟨m, d, -, hd, hbc, -, hv, -⟩
    · obtain ⟨hm, hwall, hfresh⟩ := getValidMove_some hg
      have hin : env.TranformByMove s.co m ∈ S := hconf n s hs he m hm hwall
      have hnew : env.TranformByMove s.co m ∉ s.visited.map Prod.fst := by
        intro hc
        rw [Visited.get_of_key s.visited htrue _ hc] at hfresh
        exact Bool.noConfusion hfresh
      have hlen1 : s1.breadcrumbs.Len = s.breadcrumbs.Len + 1 := by
        rw [hbc]; simp [Stack.Push, Stack.Len]
      rw [hv]
      refine ⟨?_, ?_, ?_, ?_⟩
      · simp only [Visited.set, List.map_cons, List.nodup_cons]
        exact ⟨hnew, hnd⟩
      · intro c hc
        simp only [Visited.set, List.map_cons, List.mem_cons] at hc
        rcases hc with rfl | hc
        · exact hin
        · exact hsub c hc
      · intro e he2
        simp only [Visited.set, List.mem_cons] at he2
        rcases he2 with rfl | he2
        · rfl
        · exact htrue e he2
      · have : ¬ (s1.breadcrumbs.Len < s.breadcrumbs.Len) := by omega
        simp only [this, if_false, Visited.set, List.length_cons]
        omega
    · have hlen0 : s.breadcrumbs.Len = d.length + 1 := by
        simp [Stack.Len, hd]
      have hlen1 : s1.breadcrumbs.Len = d.length := by
        rw [hbc]; simp [Stack.Len]
      rw [hv]
      refine ⟨hnd, hsub, htrue, ?_⟩
      have : s1.breadcrumbs.Len < s.breadcrumbs.Len := by omega
      simp only [this, if_true]
      omega

theorem Visited.length_le_card (v : Visited) (S : Finset Coordinate)
    (hnd : (v.map Prod.fst).Nodup) (hsub : ∀ c ∈ v.map Prod.fst, c ∈ S) :
    v.length ≤ S.card := by
  have h1 : (v.map Prod.fst).toFinset ⊆ S := by
    intro c hc
    exact hsub c (List.mem_toFinset.mp hc)
  have h2 := Finset.card_le_card h1
  rw [List.toFinset_card_of_nodup hnd, List.length_map] at h2
  exact h2

/-- Either the loop is still running after `k` passes or it has returned
within `k` passes. -/
theorem iterAt_or_iterLoop {σ : Type} (env : Env σ) (s0 : IterState σ) (k : Nat) :
    (∃ s, iterAt env k s0 = some s) ∨ (∃ o t, iterLoop env k s0 = some (o, t)) := by
  induction k with
  | zero => exact Or.inl ⟨s0, rfl⟩
  | succ k ih =>
    rcases ih with ⟨s, hs⟩ | ⟨o, t, hl⟩
    · cases hstep : iterStep env s with
      | next s1 =>
        left
        exact ⟨s1, by simp [iterAt, hs, hstep]⟩
      | halt o t =>
        right
        refine ⟨o, t, ?_⟩
        rw [iterLoop_of_iterAt env k s0 s hs 1]
        simp [iterLoop, hstep]
    · right
      obtain ⟨n, s, hn, hs, hh⟩ := iterAt_of_iterLoop env k s0 t o hl
      refine ⟨o, t, ?_⟩
      have e : k + 1 = n + (k + 1 - n) := by omega
      rw [e, iterLoop_of_iterAt env n s0 s hs (k + 1 - n)]
      have e2 : k + 1 - n = (k - n) + 1 := by omega
      rw [e2]
      simp [iterLoop, hh]

theorem confinedAt_sound {σ : Type} (env : Env σ) (S : Finset Coordinate)
    (s0 : IterState σ) (n : Nat) (h : confinedAt env S s0 n = true) (s : IterState σ)
    (hs : iterAt env n s0 = some s) (he : s.err = none) (m : String) (hm : isMove m)
    (hw : wallFlag s.survey m = false) : env.TranformByMove s.co m ∈ S := by
  unfold confinedAt at h
  rw [hs] at h
  simp only [he, Option.isSome_none, Bool.false_or, directions, List.all_cons, List.all_nil,
    Bool.and_true, Bool.and_eq_true, Bool.or_eq_true, decide_eq_true_eq] at h
  obtain ⟨h1, h2, h3, h4⟩ := h
  rcases hm with rfl | rfl | rfl | rfl
  · rcases h3 with h | h
    · rw [hw] at h; exact Bool.noConfusion h
    · exact h
  · rcases h1 with h | h
    · rw [hw] at h; exact Bool.noConfusion h
    · exact h
  · rcases h4 with h | h
    · rw [hw] at h; exact Bool.noConfusion h
    · exact h
  · rcases h2 with h | h
    · rw [hw] at h; exact Bool.noConfusion h
    · exact h

theorem iterAt_none_of_le {σ : Type} (env : Env σ) (s0 : IterState σ) {k : Nat}
    (h : iterAt env k s0 = none) : ∀ n, k ≤ n → iterAt env n s0 = none := by
  intro n hn
  induction n with
  | zero =>
    have : k = 0 := by omega
    subst this
    exact h
  | succ n ih =>
    by_cases hk : k = n + 1
    · subst hk; exact h
    · have := ih (by omega)
      simp [iterAt, this]

theorem branch_confined (n : Nat) : confinedAt branchEnv branchCells branchInit n = true := by
  by_cases hn : n < 9
  · interval_cases n <;> decide
  · have h9 : iterAt branchEnv 9 branchInit = none := rfl
    have := iterAt_none_of_le branchEnv branchInit h9 n (by omega)
    simp [confinedAt, this]

/-- C18, as stated, fails: in a maze confined to the two cells (0,0) and
(1,0), the server answers the first move with the body `null`, the decoder
leaves a nil reply, and `Iterate` ends after that one request in the panic of
`ToReply`, neither solved nor stuck nor with an error. -/
theorem Iterate_panics_on_null_reply :
    (∀ n, confinedAt nullEnv {⟨0, 0⟩, ⟨1, 0⟩} nullInit n = true) ∧
    (∀ fuel, (Iterate nullEnv (fuel + 1) ⟨true, false, true, true⟩ (emptyStack 100)
        ⟨[HttpResult.body [110, 117, 108, 108]], []⟩).map
      (fun r => (r.1, r.2.world.log)) =
        some (Outcome.panicked, ["http://127.0.0.1:8080/move/right"])) := by
  constructor
  · intro n
    cases n with
    | zero => decide
    | succ k =>
      have h1 : iterAt nullEnv 1 nullInit = none := rfl
      have := iterAt_none_of_le nullEnv nullInit h1 (k + 1) (by omega)
      simp [confinedAt, this]
  · intro fuel
    rfl

/-- C18, amended: when the surveys of the authority keep the agent inside a finite set
`S` of coordinates, every open edge of every survey the agent acts on leading
to a coordinate of `S`, `Iterate` started with an empty history returns
within `2 * (N - 1) + 1` passes, `N` the number of coordinates of `S`, having
issued at most `2 * (N - 1)` moves; it returns with a solution, an error or
"no solution", or else with the panic of `ToReply` after the authority has
answered a move with a body that the decoder turns into a nil reply. -/
theorem Iterate_terminates_in_confined_maze {σ : Type} (env : Env σ) (survey : Survey)
    (breadcrumbs : Stack) (w : World σ) (S : Finset Coordinate)
    (hb : breadcrumbs.Len = 0) (h0 : (⟨0, 0⟩ : Coordinate) ∈ S)
    (hconf : ∀ n s, iterAt env n (iterInit survey breadcrumbs w) = some s → s.err = none →
      ∀ m, isMove m → wallFlag s.survey m = false → env.TranformByMove s.co m ∈ S) :
    ∃ o t,
      (∀ fuel, 2 * (S.card - 1) + 1 ≤ fuel →
        Iterate env fuel survey breadcrumbs w = some (o, t)) ∧
      t.world.log.length ≤ w.log.length + 2 * (S.card - 1) ∧
      (o = Outcome.panicked →
        ∃ a m contents, isMove m ∧
          (env.httpGet a (moveUrl env m)).1 = HttpResult.body contents ∧
          (env.jsonUnmarshal contents).res = none) := by
  have hcount := iterAt_visited_count env survey breadcrumbs w S hb h0 hconf
  have hcnt := iterAt_counts env survey breadcrumbs w hb
  have hbound : ∀ n s, iterAt env n (iterInit survey breadcrumbs w) = some s →
      n ≤ 2 * (S.card - 1) := by
    intro n s hs
    obtain ⟨hnd, hsub, -, hlen⟩ := hcount n s hs
    obtain ⟨-, -, hl2⟩ := hcnt n s hs
    have := Visited.length_le_card s.visited S hnd hsub
    omega
  rcases iterAt_or_iterLoop env (iterInit survey breadcrumbs w) (2 * (S.card - 1) + 1) with
    ⟨s, hs⟩ | ⟨o, t, hl⟩
  · have := hbound _ s hs
    omega
  · obtain ⟨n, s, hn, hs, hh⟩ := iterAt_of_iterLoop env _ _ t o hl
    obtain ⟨hnd, hsub, htrue, hlen⟩ := hcount n s hs
    obtain ⟨⟨ms, hdata, hmoves⟩, hlog, hl2⟩ := hcnt n s hs
    have hcard := Visited.length_le_card s.visited S hnd hsub
    refine ⟨o, t, ?_, ?_, ?_⟩
    · intro fuel hf
      have e : fuel = n + ((fuel - n - 1) + 1) := by omega
      rw [Iterate, e, iterLoop_of_iterAt env n _ s hs]
      simp [iterLoop, hh]
    · by_cases hp : o = Outcome.panicked
      · subst hp
        obtain ⟨he, hc⟩ := iterStep_panicked env hh
        rcases hc with ⟨m, hg, hmv⟩ | ⟨d, m, -, hd, hmv⟩ | ⟨d, v, -, -, hw⟩
        · obtain ⟨hm, hwall, hfresh⟩ := getValidMove_some hg
          have hin : env.TranformByMove s.co m ∈ S := hconf n s hs he m hm hwall
          have hnew : env.TranformByMove s.co m ∉ s.visited.map Prod.fst := by
            intro hc
            rw [Visited.get_of_key s.visited htrue _ hc] at hfresh
            exact Bool.noConfusion hfresh
          have hcard2 := Visited.length_le_card
            (s.visited.set (env.TranformByMove s.co m) true) S
            (by simp only [Visited.set, List.map_cons, List.nodup_cons]; exact ⟨hnew, hnd⟩)
            (by
              intro c hc
              simp only [Visited.set, List.map_cons, List.mem_cons] at hc
              rcases hc with rfl | hc
              · exact hin
              · exact hsub c hc)
          simp only [Visited.set, List.length_cons] at hcard2
          have hl := Move_log env hm s.world
          rw [hmv] at hl
          simp only at hl
          rw [hl]; simp
          omega
        · rw [hdata] at hd
          obtain ⟨ms0, rfl, rfl⟩ := map_str_eq_snoc hd
          have hm : isMove m := hmoves m (by simp)
          have hl := Move_log env (isMove_ReverseMove hm) s.world
          rw [hmv] at hl
          simp only at hl
          have hlen0 : s.breadcrumbs.Len = ms0.length + 1 := by
            simp [Stack.Len, hdata]
          rw [hl]; simp
          omega
        · rw [hw]; omega
      · obtain ⟨rfl, -⟩ := iterStep_halt env hh hp
        omega
    · intro hp
      subst hp
      obtain ⟨-, hc⟩ := iterStep_panicked env hh
      have hmove : ∀ m, isMove m → ∀ w1 : World σ, Move env m s.world = (none, w1) →
          ∃ a m contents, isMove m ∧
            (env.httpGet a (moveUrl env m)).1 = HttpResult.body contents ∧
            (env.jsonUnmarshal contents).res = none := by
        intro m hm w1 hmv
        rw [Move_valid env hm s.world] at hmv
        obtain ⟨h1, -⟩ := Prod.mk.inj hmv
        cases hr : (env.httpGet s.world.auth (moveUrl env m)).1 with
        | failure msg => rw [hr] at h1; simp at h1
        | body contents =>
          rw [hr] at h1
          simp only [Option.map_eq_none', ToReply] at h1
          exact ⟨s.world.auth, m, contents, hm, hr, h1⟩
      rcases hc with ⟨m, hg, hmv⟩ | ⟨d, m, -, hd, hmv⟩ | ⟨d, v, hd, hv, -⟩
      · exact hmove m (getValidMove_some hg).1 _ hmv
      · rw [hdata] at hd
        obtain ⟨ms0, rfl, rfl⟩ := map_str_eq_snoc hd
        exact hmove _ (isMove_ReverseMove (hmoves m (by simp))) _ hmv
      · exfalso
        rw [hdata] at hd
        rcases List.eq_nil_or_concat ms with rfl | ⟨ms0, m0, rfl⟩
        · simp at hd
        · rw [List.concat_eq_append, List.map_append] at hd
          obtain ⟨-, h2⟩ := List.append_inj' hd (by simp)
          simp at h2
          exact hv m0 h2.symm

/-- The run in `branchMaze`, confined to its six cells: `Iterate` returns
within eleven passes after at most ten moves. -/
theorem Iterate_terminates_in_confined_maze_witness :
    branchCells.card = 6 ∧
    ∃ o t,
      (∀ fuel, 2 * (branchCells.card - 1) + 1 ≤ fuel →
        Iterate branchEnv fuel (branchMaze ⟨0, 0⟩) (emptyStack 100) ⟨⟨0, 0⟩, []⟩
          = some (o, t)) ∧
      t.world.log.length ≤ ([] : List String).length + 2 * (branchCells.card - 1) ∧
      (o = Outcome.panicked →
        ∃ a m contents, isMove m ∧
          (branchEnv.httpGet a (moveUrl branchEnv m)).1 = HttpResult.body contents ∧
          (branchEnv.jsonUnmarshal contents).res = none) :=
  ⟨by decide,
   Iterate_terminates_in_confined_maze branchEnv (branchMaze ⟨0, 0⟩) (emptyStack 100)
    ⟨⟨0, 0⟩, []⟩ branchCells (by decide) (by decide)
    (fun n s hs he m hm hw =>
      confinedAt_sound branchEnv branchCells branchInit n (branch_confined n) s hs he m hm hw)⟩

end Gc6
